import Mathlib

/-!
Verification development for the zapzap simulation core (Rust crate
zapzap-native/crates/zapzap).  The Rust sources are shallowly embedded:
machine integers (u8/u32/u64/usize) become Nat with explicit reductions
mod 2^8 / 2^64 where overflow can occur, Vec indexing is modelled with
List.get? (a missing index models the Rust panic), mutation becomes
explicit state passing, and f32-valued fields that no claim depends on
numerically are carried as Rat so that the record layout of the source
is kept.  Loops become folds or structurally recursive helpers over the
same index lists the Rust code iterates over; the one unbounded Rust
loop (the dead-end reroll in get_new_element) gets an explicit fuel
parameter.
-/

namespace ZapZap

/-- Direction bitmask over tile connections, from components.rs:
right=1, up=2, left=4, down=8. -/
structure Direction where
  bits : Nat
deriving DecidableEq, Repr

def Direction.RIGHT : Direction := ⟨1⟩

def Direction.UP : Direction := ⟨2⟩

def Direction.LEFT : Direction := ⟨4⟩

def Direction.DOWN : Direction := ⟨8⟩

/-- Per-cell marking state from components.rs (enum Marking). -/
inductive Marking where
  | left
  | right
  | ok
  | none
  | animating
deriving DecidableEq, Repr

/-- A tile stores its connection bitmask in the lower 4 bits (grid.rs). -/
structure Tile where
  connections : Nat
deriving DecidableEq, Repr

/-- Tile::new masks the u8 argument to the low 4 bits. -/
def Tile.new (c : Nat) : Tile := ⟨(c % 256) &&& 0x0F⟩

/-- Tile::rotate from grid.rs: r = connections << 1 (u8, wraps mod 256);
r = (r & 0x0F) | (r >> 4); connections = r & 0x0F. -/
def Tile.rotate (t : Tile) : Tile :=
  let r := (t.connections <<< 1) % 256
  let r2 := (r &&& 0x0F) ||| (r >>> 4)
  ⟨r2 &&& 0x0F⟩

/-- Tile::has_connection from grid.rs. -/
def Tile.has_connection (t : Tile) (d : Direction) : Bool :=
  (t.connections &&& d.bits) != 0

/-- Tile::is_single_connection from grid.rs. -/
def Tile.is_single_connection (t : Tile) : Bool :=
  t.connections == 1 || t.connections == 2 || t.connections == 4 || t.connections == 8

/-- The board grid from grid.rs: flat column-major storage,
index = x * height + y, None = empty cell. -/
structure Grid where
  width : Nat
  height : Nat
  tiles : List (Option Tile)
deriving DecidableEq, Repr

/-- Grid::new fills the storage with None. -/
def Grid.new (w h : Nat) : Grid := ⟨w, h, List.replicate (w * h) Option.none⟩

/-- Grid::idx from grid.rs: the flat index, computed with no bounds check. -/
def Grid.idx (g : Grid) (x y : Nat) : Nat := x * g.height + y

/-- Rust `self.tiles[self.idx(x, y)]` including the panic behaviour of Vec
indexing: the outer Option is some v when the access returns v, and
Option.none when the Rust code would panic (flat index out of range). -/
def Grid.getRaw (g : Grid) (x y : Nat) : Option (Option Tile) :=
  g.tiles.get? (g.idx x y)

/-- Grid::get, collapsing the panic case: used by the algorithms below,
all of which guard their coordinates so the panic case is unreachable. -/
def Grid.get (g : Grid) (x y : Nat) : Option Tile :=
  (g.tiles.get? (g.idx x y)).join

/-- Grid::set (List.set is a no-op out of range; the sources only call it
in range, where it matches the Vec write). -/
def Grid.set (g : Grid) (x y : Nat) (t : Option Tile) : Grid :=
  { g with tiles := g.tiles.set (g.idx x y) t }

/-- Grid::copy_within_column from grid.rs: tiles[idx(x,to)] = tiles[idx(x,from)]. -/
def Grid.copy_within_column (g : Grid) (x from_y to_y : Nat) : Grid :=
  { g with tiles := g.tiles.set (g.idx x to_y) ((g.tiles.get? (g.idx x from_y)).join) }

/-- The u64 modulus. -/
def U64 : Nat := 2 ^ 64

/-- Seedable xorshift64 generator from board.rs. The state is a u64. -/
structure Rng where
  state : Nat
deriving DecidableEq, Repr

/-- Rng::new from board.rs: a zero seed is replaced by 1. -/
def Rng.new (seed : Nat) : Rng := ⟨if seed = 0 then 1 else seed⟩

/-- Rng::next_u64 (xorshift64); shifts left wrap mod 2^64 as in Rust u64
arithmetic. Returns the drawn value together with the advanced state. -/
def Rng.next_u64 (r : Rng) : Nat × Rng :=
  let x0 := r.state
  let x1 := x0 ^^^ ((x0 <<< 13) % U64)
  let x2 := x1 ^^^ (x1 >>> 7)
  let x3 := x2 ^^^ ((x2 <<< 17) % U64)
  (x3, ⟨x3⟩)

/-- Rng::next_int: a draw in [0, upper_bound). -/
def Rng.next_int (r : Rng) (upper_bound : Nat) : Nat × Rng :=
  let (v, r') := r.next_u64
  (v % upper_bound, r')

/-- The nth u64 output of the generator (output sequence as a function). -/
def Rng.nthOutput (r : Rng) : Nat → Nat
  | 0 => r.next_u64.1
  | n + 1 => (r.next_u64.2).nthOutput n

/-- The core game board from board.rs.  Markings are flat column-major
(width * height entries, index x * height + y), like the grid. -/
structure GameBoard where
  width : Nat
  height : Nat
  grid : Grid
  markings : List Marking
  multiplier_left : List Int
  multiplier_right : List Int
  rng : Rng
  left_pins_connect : Nat
  right_pins_connect : Nat
  left_conquered : Nat
  right_conquered : Nat
  missing_links : Nat
  new_elements : Nat
  missing_link_elements : Nat
deriving DecidableEq, Repr

/-- GameBoard::marking_idx. -/
def GameBoard.marking_idx (b : GameBoard) (x y : Nat) : Nat := x * b.height + y

/-- Rust `self.markings[self.marking_idx(x, y)]` including the panic case:
Option.none models the Vec panic on an out-of-range flat index. -/
def GameBoard.get_markingRaw (b : GameBoard) (x y : Nat) : Option Marking :=
  b.markings.get? (b.marking_idx x y)

/-- GameBoard::get_marking; the algorithms below only call it with guarded
coordinates, where it agrees with the Rust read. -/
def GameBoard.get_marking (b : GameBoard) (x y : Nat) : Marking :=
  (b.markings.get? (b.marking_idx x y)).getD Marking.none

/-- GameBoard::set_marking. -/
def GameBoard.set_marking (b : GameBoard) (x y : Nat) (m : Marking) : GameBoard :=
  { b with markings := b.markings.set (b.marking_idx x y) m }

/-- GameBoard::set_tile: writes connection & 0x0F only when a tile is present. -/
def GameBoard.set_tile (b : GameBoard) (x y : Nat) (connection : Nat) : GameBoard :=
  match b.grid.get x y with
  | Option.some _ => { b with grid := b.grid.set x y (Option.some ⟨(connection % 256) &&& 0x0F⟩) }
  | Option.none => b

/-- Fuel bound for the dead-end reroll loop in get_new_element.  The Rust
loop redraws until a non-dead-end mask appears; the xorshift stream makes
that happen almost immediately in practice, and no claim depends on the
value drawn after a reroll, only on its range. -/
def rerollFuel : Nat := 64

/-- The `while matches!(k, 1|2|4|8)` reroll loop of get_new_element,
with fuel (any draw outside {1,2,4,8} exits the loop). -/
def rerollLoop : Nat → Nat → Rng → Nat × Rng
  | 0, k, rng => (k, rng)
  | fuel + 1, k, rng =>
    if k = 1 ∨ k = 2 ∨ k = 4 ∨ k = 8 then
      let (n, rng') := rng.next_int 15
      rerollLoop fuel (n + 1) rng'
    else (k, rng)

/-- GameBoard::get_new_element from board.rs: draws a mask in [1,15],
tracking the running dead-end ratio and rerolling when it exceeds the
configured percentage.  (The Rust guard `new_elements > 0` is always true
because the counter was just incremented.) -/
def GameBoard.get_new_element (b : GameBoard) : Nat × GameBoard :=
  let (n, rng1) := b.rng.next_int 15
  let k0 := n + 1
  let ne := b.new_elements + 1
  let kr :=
    if 100 * b.missing_link_elements / ne > b.missing_links then
      rerollLoop rerollFuel k0 rng1
    else (k0, rng1)
  let k := kr.1
  let mle :=
    if k = 1 ∨ k = 2 ∨ k = 4 ∨ k = 8 then b.missing_link_elements + 1
    else b.missing_link_elements
  (k, { b with rng := kr.2, new_elements := ne, missing_link_elements := mle })

/-- Inner loop of reset_table over the columns of one row: draw a fresh
tile, store it, and clear the marking. -/
def GameBoard.resetCellsAux (j : Nat) : List Nat → GameBoard → GameBoard
  | [], b => b
  | i :: rest, b =>
    let p := b.get_new_element
    let b1 := { p.2 with grid := p.2.grid.set i j (Option.some (Tile.new p.1)) }
    GameBoard.resetCellsAux j rest (b1.set_marking i j Marking.none)

/-- Outer loop of reset_table over rows: refill the row, then reset both
row multipliers to 1. -/
def GameBoard.resetRowsAux : List Nat → GameBoard → GameBoard
  | [], b => b
  | j :: rest, b =>
    let b1 := GameBoard.resetCellsAux j (List.range b.width) b
    GameBoard.resetRowsAux rest
      { b1 with
        multiplier_left := b1.multiplier_left.set j 1
        multiplier_right := b1.multiplier_right.set j 1 }

/-- GameBoard::reset_table from board.rs. -/
def GameBoard.reset_table (b : GameBoard) (percent_missing_links : Nat) : GameBoard :=
  GameBoard.resetRowsAux (List.range b.height)
    { b with
      missing_links := percent_missing_links
      new_elements := 0
      missing_link_elements := 0 }

/-- Fuel bound for the BFS queue loop.  Each pop either discards its item
or marks one in-range cell with the marker; a cell already holding the
marker is skipped, so at most width*height marks happen and each mark
enqueues at most 4 items, bounding the pops by 1 + 4*width*height. -/
def GameBoard.bfsFuel (b : GameBoard) : Nat := (b.width * b.height + 1) * 5

/-- Queue loop of expand_connections_bfs (board.rs): pops (x, y, incoming
direction) items, skipping out-of-bounds cells, cells already holding the
marker, and tiles without the incoming connection; otherwise marks the
cell and pushes its connected neighbours with the opposite direction. -/
def GameBoard.expandLoop (marker : Marking) : Nat → GameBoard → List (Nat × Nat × Direction) → GameBoard
  | 0, b, _ => b
  | _ + 1, b, [] => b
  | fuel + 1, b, (x, y, ctype) :: rest =>
    if b.width ≤ x ∨ b.height ≤ y then GameBoard.expandLoop marker fuel b rest
    else if b.get_marking x y = marker then GameBoard.expandLoop marker fuel b rest
    else
      match b.grid.get x y with
      | Option.some t =>
        if t.has_connection ctype then
          let b2 := b.set_marking x y marker
          let pushes :=
            (if t.has_connection Direction.LEFT ∧ 0 < x then [(x - 1, y, Direction.RIGHT)] else [])
            ++ (if t.has_connection Direction.UP ∧ 0 < y then [(x, y - 1, Direction.DOWN)] else [])
            ++ (if t.has_connection Direction.RIGHT then [(x + 1, y, Direction.LEFT)] else [])
            ++ (if t.has_connection Direction.DOWN then [(x, y + 1, Direction.UP)] else [])
          GameBoard.expandLoop marker fuel b2 (rest ++ pushes)
        else GameBoard.expandLoop marker fuel b rest
      | Option.none => GameBoard.expandLoop marker fuel b rest

/-- GameBoard::expand_connections_bfs: guards against the None/Animating
markers, then runs the queue loop from the seed. -/
def GameBoard.expand_connections_bfs (b : GameBoard) (cx cy : Nat) (incoming_dir : Direction) (marker : Marking) : GameBoard :=
  if marker = Marking.none ∨ marker = Marking.animating then b
  else GameBoard.expandLoop marker b.bfsFuel b [(cx, cy, incoming_dir)]

/-- Reset pass of check_connections: every non-Animating marking becomes
None (loops j over rows, i over columns, like the source). -/
def GameBoard.resetMarkingsPass (b : GameBoard) : GameBoard :=
  (List.range b.height).foldl
    (fun b j =>
      (List.range b.width).foldl
        (fun b i =>
          if b.get_marking i j ≠ Marking.animating then b.set_marking i j Marking.none else b)
        b)
    b

/-- Pass 1 of check_connections: flood-fill Right from every right-edge
tile with a right-facing connection. -/
def GameBoard.rightFillPass (b : GameBoard) : GameBoard :=
  (List.range b.height).foldl
    (fun b j =>
      match b.grid.get (b.width - 1) j with
      | Option.some t =>
        if t.has_connection Direction.RIGHT then
          b.expand_connections_bfs (b.width - 1) j Direction.RIGHT Marking.right
        else b
      | Option.none => b)
    b

/-- Pass 2 of check_connections: flood-fill from every left-edge tile with
a left-facing connection, upgrading to Ok when the seed was already
reached from the right. -/
def GameBoard.leftFillPass (b : GameBoard) : GameBoard :=
  (List.range b.height).foldl
    (fun b j =>
      match b.grid.get 0 j with
      | Option.some t =>
        if t.has_connection Direction.LEFT then
          let marker :=
            if b.get_marking 0 j = Marking.right ∨ b.get_marking 0 j = Marking.ok then Marking.ok
            else Marking.left
          b.expand_connections_bfs 0 j Direction.LEFT marker
        else b
      | Option.none => b)
    b

/-- Left-edge pin test of pass 3: row j has a tile at (0, j) with a left
connection that is marked Ok. -/
def GameBoard.leftPinOk (b : GameBoard) (j : Nat) : Bool :=
  match b.grid.get 0 j with
  | Option.some t => t.has_connection Direction.LEFT && b.get_marking 0 j == Marking.ok
  | Option.none => false

/-- Right-edge pin test of pass 3. -/
def GameBoard.rightPinOk (b : GameBoard) (j : Nat) : Bool :=
  match b.grid.get (b.width - 1) j with
  | Option.some t => t.has_connection Direction.RIGHT && b.get_marking (b.width - 1) j == Marking.ok
  | Option.none => false

/-- Pass 3 of check_connections as a fold over rows: accumulates
(result, left_pins_connect, right_pins_connect). -/
def GameBoard.pinsFoldAux (b : GameBoard) (acc : Int × Nat × Nat) : List Nat → Int × Nat × Nat
  | [] => acc
  | j :: rest =>
    let acc1 := if b.leftPinOk j then ((1 : Int), acc.2.1 + 1, acc.2.2) else acc
    let acc2 := if b.rightPinOk j then (acc1.1, acc1.2.1, acc1.2.2 + 1) else acc1
    GameBoard.pinsFoldAux b acc2 rest

/-- State of check_connections after the counter reset, the marking reset
and the two flood fills, just before pass 3. -/
def GameBoard.afterFills (b : GameBoard) : GameBoard :=
  GameBoard.leftFillPass
    (GameBoard.rightFillPass
      (GameBoard.resetMarkingsPass { b with left_pins_connect := 0, right_pins_connect := 0 }))

/-- GameBoard::check_connections from board.rs: zeroes the pin counters,
resets non-Animating markings, runs both flood fills, then counts pins.
Returns the Rust return value (1 on a left-to-right connection, else 0)
together with the updated board. -/
def GameBoard.check_connections (b : GameBoard) : Int × GameBoard :=
  let b3 := b.afterFills
  let p := b3.pinsFoldAux (0, 0, 0) (List.range b3.height)
  (p.1, { b3 with left_pins_connect := p.2.1, right_pins_connect := p.2.2 })

/-- Survivor collection of remove_and_shift_connecting_tiles: walk the
column bottom-to-top and keep every present tile whose cell is not
marked Ok (push order = bottom-up). -/
def GameBoard.survivorsCol (b : GameBoard) (x : Nat) : List Tile :=
  ((List.range b.height).reverse).filterMap
    (fun y => if b.get_marking x y ≠ Marking.ok then b.grid.get x y else Option.none)

/-- Placement loop of remove_and_shift_connecting_tiles: survivor i goes
to row height - 1 - i (enumerate loop of the source). -/
def GameBoard.placeAux (x h : Nat) : Nat → List Tile → GameBoard → GameBoard
  | _, [], b => b
  | i, t :: rest, b =>
    GameBoard.placeAux x h (i + 1) rest { b with grid := b.grid.set x (h - 1 - i) (Option.some t) }

/-- Top-fill loop of remove_and_shift_connecting_tiles: each vacated row y
gets a freshly generated tile. -/
def GameBoard.fillNewAux (x : Nat) : List Nat → GameBoard → GameBoard
  | [], b => b
  | y :: rest, b =>
    let p := b.get_new_element
    GameBoard.fillNewAux x rest { p.2 with grid := p.2.grid.set x y (Option.some (Tile.new p.1)) }

/-- Per-column body of remove_and_shift_connecting_tiles. -/
def GameBoard.removeShiftCol (b : GameBoard) (x : Nat) : GameBoard :=
  let survivors := b.survivorsCol x
  let b1 := GameBoard.placeAux x b.height 0 survivors b
  GameBoard.fillNewAux x (List.range (b.height - survivors.length)) b1

/-- GameBoard::remove_and_shift_connecting_tiles from board.rs. -/
def GameBoard.remove_and_shift_connecting_tiles (b : GameBoard) : GameBoard :=
  (List.range b.width).foldl GameBoard.removeShiftCol b

/-- Innermost copy loop of bomb_table: shift the column down by one
within the working window. -/
def GameBoard.copyLoop (x shifted : Nat) : List Nat → GameBoard → GameBoard
  | [], b => b
  | sy :: rest, b =>
    GameBoard.copyLoop x shifted rest
      { b with grid := b.grid.copy_within_column x (sy + shifted - 1) (sy + shifted) }

/-- Middle loop of bomb_table over the affected rows of one column
(descending), threading the `shifted` counter. -/
def GameBoard.bombColY (x : Nat) : List Nat → Nat → GameBoard → GameBoard
  | [], _, b => b
  | y :: rest, shifted, b =>
    let b1 := if 1 ≤ y then GameBoard.copyLoop x shifted ((List.range' 1 y).reverse) b else b
    let p := b1.get_new_element
    let b2 := { p.2 with grid := p.2.grid.set x 0 (Option.some (Tile.new p.1)) }
    GameBoard.bombColY x rest (shifted + 1) b2

/-- Final fill loop of bomb_table: rows shifted-1 down to 0 get fresh tiles. -/
def GameBoard.bombFill (x : Nat) : List Nat → GameBoard → GameBoard
  | [], b => b
  | fy :: rest, b =>
    let p := b.get_new_element
    GameBoard.bombFill x rest { p.2 with grid := p.2.grid.set x fy (Option.some (Tile.new p.1)) }

/-- Per-column body of bomb_table; the y loop runs end_j - start_j times,
so the final fill covers rows 0 .. end_j - start_j - 1 (descending). -/
def GameBoard.bombCol (b : GameBoard) (x start_j end_j : Nat) : GameBoard :=
  let b1 := GameBoard.bombColY x ((List.range' start_j (end_j - start_j)).reverse) 0 b
  GameBoard.bombFill x ((List.range (end_j - start_j)).reverse) b1

/-- GameBoard::bomb_table from board.rs: clears a clamped rectangle around
(ati, atj) and shifts each affected column downward, refilling the top. -/
def GameBoard.bomb_table (b : GameBoard) (ati atj delta_x delta_y : Nat) : GameBoard :=
  if b.width ≤ ati ∨ b.height ≤ atj then b
  else
    let start_i := ati - delta_x
    let end_i := min (ati + delta_x + 1) b.width
    let start_j := atj - delta_y
    let end_j := min (atj + delta_y + 1) b.height
    (List.range' start_i (end_i - start_i)).foldl (fun b x => b.bombCol x start_j end_j) b

/-- GameBoard::new from board.rs. -/
def GameBoard.new (width height missing_links : Nat) (seed : Nat) : GameBoard :=
  let board : GameBoard :=
    { width := width
      height := height
      grid := Grid.new width height
      markings := List.replicate (width * height) Marking.none
      multiplier_left := List.replicate height 1
      multiplier_right := List.replicate height 1
      rng := Rng.new seed
      left_pins_connect := 0
      right_pins_connect := 0
      left_conquered := 0
      right_conquered := 0
      missing_links := missing_links
      new_elements := 0
      missing_link_elements := 0 }
  board.reset_table missing_links

/-- Row-major cell scan list used by the scoring loops of
BotPlayer::evaluate_connections (for j in 0..height, for i in 0..width). -/
def rowMajorCells (b : GameBoard) : List (Nat × Nat) :=
  (List.range b.height).flatMap (fun j => (List.range b.width).map (fun i => (i, j)))

/-- Rotate the tile at (x, y) in place, as `grid.get_mut(x, y)` followed
by `t.rotate()` does (no-op when the cell is empty). -/
def GameBoard.rotateTileAt (b : GameBoard) (x y : Nat) : GameBoard :=
  match b.grid.get x y with
  | Option.some t => { b with grid := b.grid.set x y (Option.some t.rotate) }
  | Option.none => b

/-- BotPlayer::evaluate_connections from bot.rs: run check_connections;
on a zap score 2 per Ok cell, otherwise 1 per Right cell plus 3 for each
Right-marked right-edge cell with a right connection.  Returns the score
with the mutated board (the caller threads it through further trials). -/
def evaluate_connections (b : GameBoard) : Int × GameBoard :=
  let zb := b.check_connections
  let b1 := zb.2
  if zb.1 ≠ 0 then
    (((rowMajorCells b1).foldl
      (fun (acc : Int) p => if b1.get_marking p.1 p.2 = Marking.ok then acc + 2 else acc) 0), b1)
  else
    (((rowMajorCells b1).foldl
      (fun (acc : Int) p =>
        if b1.get_marking p.1 p.2 = Marking.right then
          let bonus :=
            if p.1 = b1.width - 1 then
              match b1.grid.get p.1 p.2 with
              | Option.some t => if t.has_connection Direction.RIGHT then (3 : Int) else 0
              | Option.none => 0
            else 0
          acc + 1 + bonus
        else acc) 0), b1)

/-- A move recommendation from bot.rs. -/
structure BotMove where
  x : Nat
  y : Nat
  rotation_count : Nat
deriving DecidableEq, Repr

/-- The three trials for one candidate cell of determine_next_move: the
cloned board is rotated cumulatively (1, 2, 3 quarter turns) and scored
after each rotation, threading the mutated simulation board as the Rust
loop does.  Cells that are empty, single-connection or full-connection
are skipped. -/
def cellTrials (b : GameBoard) (x y : Nat) : List (BotMove × Int) :=
  match b.grid.get x y with
  | Option.none => []
  | Option.some t =>
    if t.connections = 1 ∨ t.connections = 2 ∨ t.connections = 4 ∨ t.connections = 8 ∨ t.connections = 15 then []
    else
      let e1 := evaluate_connections (b.rotateTileAt x y)
      let e2 := evaluate_connections (e1.2.rotateTileAt x y)
      let e3 := evaluate_connections (e2.2.rotateTileAt x y)
      [(⟨x, y, 1⟩, e1.1), (⟨x, y, 2⟩, e2.1), (⟨x, y, 3⟩, e3.1)]

/-- All trials of determine_next_move in encounter order: x ascending
(outer loop), then y, then rotation count. -/
def botTrials (b : GameBoard) : List (BotMove × Int) :=
  (List.range b.width).flatMap (fun x => (List.range b.height).flatMap (fun y => cellTrials b x y))

/-- Best-so-far fold of determine_next_move: starts from (None, 0) and
replaces the best move exactly when a trial scores strictly higher. -/
def bestFoldAux {α : Type} (acc : Option α × Int) : List (α × Int) → Option α × Int
  | [] => acc
  | (a, s) :: rest => bestFoldAux (if acc.2 < s then (Option.some a, s) else acc) rest

/-- BotPlayer::determine_next_move from bot.rs: the nested loops over
cells and rotation counts become the best-so-far fold over the trial
list, which enumerates the trials in the same order with the same skip
rule and the same strict improvement test. -/
def BotPlayer.determine_next_move (b : GameBoard) : Option BotMove :=
  (bestFoldAux (Option.none, 0) (botTrials b)).1

/-- calculate_bonus_drops from bonus.rs: (many1, many2, many5) coin counts
from the two pin counts. -/
def calculate_bonus_drops (left_pins right_pins : Nat) : Nat × Nat × Nat :=
  let many1s := 2
  let p1 :=
    if left_pins > 6 then (many1s + 1, 3, left_pins - 6)
    else if left_pins > 3 then (many1s + 1, left_pins - 3, 0)
    else (many1s, 0, 0)
  let p2 :=
    if right_pins > 6 then (p1.1 + 1, p1.2.1 + 3, p1.2.2 + (right_pins - 6))
    else if right_pins > 3 then (p1.1 + 1, p1.2.1 + (right_pins - 3), p1.2.2)
    else p1
  p2

/-- Game mode from components.rs. -/
inductive GameMode where
  | zen
  | vsBot
deriving DecidableEq, Repr

/-- Bonus coin types from components.rs. -/
inductive BonusType where
  | coin1
  | coin2
  | coin5
deriving DecidableEq, Repr

/-- BonusType::points. -/
def BonusType.points : BonusType → Int
  | BonusType.coin1 => 1
  | BonusType.coin2 => 2
  | BonusType.coin5 => 5

/-- BonusType::alpha (f32 values carried as Rat). -/
def BonusType.alpha : BonusType → Rat
  | BonusType.coin1 => 1
  | BonusType.coin2 => 11 / 10
  | BonusType.coin5 => 13 / 10

/-- BonusType::atlas_uv as (col, row). -/
def BonusType.atlas_uv : BonusType → Rat × Rat
  | BonusType.coin1 => (3, 2)
  | BonusType.coin2 => (3, 3)
  | BonusType.coin5 => (3, 4)

/-- Power-up types from components.rs. -/
inductive PowerUpType where
  | bomb
  | cross
  | arrow
deriving DecidableEq, Repr

/-- PowerUpType::atlas_uv. -/
def PowerUpType.atlas_uv : PowerUpType → Rat × Rat
  | PowerUpType.bomb => (7, 1)
  | PowerUpType.cross => (6, 0)
  | PowerUpType.arrow => (7, 0)

/-- PowerUpType::alpha. -/
def PowerUpType.alpha (_ : PowerUpType) : Rat := 13 / 10

/-- PowerUpType::scale. -/
def PowerUpType.scale : PowerUpType → Rat
  | PowerUpType.bomb => 8 / 10
  | PowerUpType.cross => 7 / 10
  | PowerUpType.arrow => 7 / 10

/-- FallingBonusKind from bonus.rs. -/
inductive FallingBonusKind where
  | coin (b : BonusType)
  | powerUp (p : PowerUpType)
deriving DecidableEq, Repr

/-- A falling bonus object from bonus.rs; the f32 kinematic fields are
carried as Rat (none of the buffer-structure claims depends on them). -/
structure FallingBonus where
  tile_x : Nat
  tile_y : Nat
  current_y : Rat
  target_y : Rat
  speed : Rat
  scale : Rat
  rot_angle : Rat
  kind : FallingBonusKind
deriving DecidableEq, Repr

/-- FallingBonus::alpha. -/
def FallingBonus.alpha (f : FallingBonus) : Rat :=
  match f.kind with
  | FallingBonusKind.coin c => c.alpha
  | FallingBonusKind.powerUp p => p.alpha

/-- FallingBonus::base_scale. -/
def FallingBonus.base_scale (f : FallingBonus) : Rat :=
  match f.kind with
  | FallingBonusKind.coin _ => 8 / 10
  | FallingBonusKind.powerUp p => p.scale

/-- FallingBonus::atlas_uv. -/
def FallingBonus.atlas_uv (f : FallingBonus) : Rat × Rat :=
  match f.kind with
  | FallingBonusKind.coin c => c.atlas_uv
  | FallingBonusKind.powerUp p => p.atlas_uv

/-- Modelled from the spec: FallingBonus::pulse_scale is called by
rebuild_render_buffer (state.rs) but its definition is missing from the
sources; the spec describes only an idle rotation-and-pulse animation for
landed bonuses.  It is a per-bonus scalar pulse factor; its value does not
affect the buffer structure, so it is modelled as the neutral factor 1. -/
def FallingBonus.pulse_scale (_ : FallingBonus) : Rat := 1

/-- BonusState from bonus.rs: falling and landed bonus objects. -/
structure BonusState where
  falling : List FallingBonus
  landed : List FallingBonus
deriving DecidableEq, Repr

/-- BonusState::all_bonuses: falling then landed, the render order. -/
def BonusState.all_bonuses (s : BonusState) : List FallingBonus :=
  s.falling ++ s.landed

/-- Rotation animation record from animation.rs.  The is_bot flag is
modelled from the spec: RotateAnim::new_with_source and the is_bot field
are referenced by state.rs but missing from the sources; the spec says
bot moves are tagged as bot-originated for rendering. -/
structure RotateAnim where
  x : Nat
  y : Nat
  start_angle : Rat
  end_angle : Rat
  progress : Rat
  duration : Rat
  is_bot : Bool
deriving DecidableEq, Repr

/-- Fall animation record from animation.rs. -/
structure FallAnim where
  x : Nat
  y : Nat
  current_y : Rat
  target_y : Rat
  speed : Rat
deriving DecidableEq, Repr

/-- AnimationState from animation.rs. -/
structure AnimationState where
  rotate_anims : List RotateAnim
  fall_anims : List FallAnim
  freeze_timer : Rat
deriving DecidableEq, Repr

/-- AnimationState::get_rotation: the first matching rotation animation's
interpolated angle. -/
def AnimationState.get_rotation (a : AnimationState) (x y : Nat) : Option Rat :=
  match a.rotate_anims.find? (fun an => an.x == x && an.y == y) with
  | Option.some an => Option.some (an.start_angle + (an.end_angle - an.start_angle) * an.progress)
  | Option.none => Option.none

/-- AnimationState::get_fall_y: the first matching fall animation's Y. -/
def AnimationState.get_fall_y (a : AnimationState) (x y : Nat) : Option Rat :=
  (a.fall_anims.find? (fun an => an.x == x && an.y == y)).map FallAnim.current_y

/-- Game phase from state.rs. -/
inductive GamePhase where
  | waitingForInput
  | rotatingTile
  | fallingTiles
  | freezeDuringZap
  | freezeDuringBomb
  | gameOver
  | fallingBonuses
deriving DecidableEq, Repr

/-- Render instance record from state.rs (8 packed f32 fields, carried as
Rat). -/
structure RenderInstance where
  x : Rat
  y : Rat
  rot_angle : Rat
  scale : Rat
  sprite_id : Rat
  alpha : Rat
  flags : Rat
  atlas_row : Rat
deriving DecidableEq, Repr

/-- TILE_SIZE from state.rs. -/
def TILE_SIZE : Rat := 50

/-- GRID_OFFSET_X from state.rs. -/
def GRID_OFFSET_X : Rat := 225

/-- GRID_OFFSET_Y from state.rs. -/
def GRID_OFFSET_Y : Rat := 25

/-- ATLAS_ROW_NORMAL from components.rs. -/
def ATLAS_ROW_NORMAL : Rat := 1

/-- ATLAS_ROW_PINS from components.rs. -/
def ATLAS_ROW_PINS : Rat := 3

/-- ATLAS_COL_LEFT_PIN from components.rs. -/
def ATLAS_COL_LEFT_PIN : Rat := 12

/-- ATLAS_COL_RIGHT_PIN from components.rs. -/
def ATLAS_COL_RIGHT_PIN : Rat := 14

/-- GRID_CODEP atlas-column lookup table from components.rs. -/
def GRID_CODEP : List Nat := [0, 12, 15, 5, 14, 1, 4, 7, 13, 6, 2, 8, 3, 9, 10, 11]

/-- sprites::tile_atlas_col from state.rs. -/
def tile_atlas_col (connections : Nat) : Rat :=
  ((GRID_CODEP.getD (connections &&& 0x0F) 0 : Nat) : Rat)

/-- The slice of GameState (state.rs) read by rebuild_render_buffer,
plus the scalar gameplay fields.  The effects generator, sound queue,
score popups and the output buffer itself are omitted: rebuild returns
the buffer instead of mutating a field, and reads nothing from them. -/
structure GameState where
  board : GameBoard
  phase : GamePhase
  mode : GameMode
  left_score : Int
  right_score : Int
  bot_enabled : Bool
  anims : AnimationState
  bonuses : BonusState
  pending_bonus : Nat × Nat × Nat
  pending_bomb_params : Option (Nat × Nat × Nat × Nat)
  pending_tap : Option (Nat × Nat)
deriving DecidableEq, Repr

/-- GameState::is_pending_bomb_tile from state.rs. -/
def GameState.is_pending_bomb_tile (s : GameState) (x y : Nat) : Bool :=
  match s.pending_bomb_params with
  | Option.some (tx, ty, dx, dy) =>
    let start_x := tx - dx
    let end_x := min (tx + dx + 1) s.board.width
    let start_y := ty - dy
    let end_y := min (ty + dy + 1) s.board.height
    decide (start_x ≤ x ∧ x < end_x ∧ start_y ≤ y ∧ y < end_y)
  | Option.none => false

/-- Left-pin records of rebuild_render_buffer (one per row, emitted first). -/
def leftPinInsts (s : GameState) : List RenderInstance :=
  (List.range s.board.height).map (fun (y : Nat) =>
    { x := GRID_OFFSET_X - TILE_SIZE + TILE_SIZE * (1 / 2)
      y := GRID_OFFSET_Y + ((y : Nat) : Rat) * TILE_SIZE + TILE_SIZE * (1 / 2)
      rot_angle := 0
      scale := 1
      sprite_id := ATLAS_COL_LEFT_PIN
      alpha := 1
      flags := 1
      atlas_row := ATLAS_ROW_PINS })

/-- One tile record of rebuild_render_buffer, with the animation
overrides and the phase-dependent alpha of the source. -/
def tileInst (s : GameState) (x y : Nat) (tile : Tile) : RenderInstance :=
  let marking := s.board.get_marking x y
  let px := GRID_OFFSET_X + (x : Rat) * TILE_SIZE + TILE_SIZE * (1 / 2)
  let py := GRID_OFFSET_Y + (y : Rat) * TILE_SIZE + TILE_SIZE * (1 / 2)
  let rot_angle := (s.anims.get_rotation x y).getD 0
  let final_y := (s.anims.get_fall_y x y).getD py
  let sprite_id := tile_atlas_col tile.connections
  let alpha :=
    if marking = Marking.ok ∧ s.phase = GamePhase.freezeDuringZap then 0
    else if s.phase = GamePhase.freezeDuringBomb ∧ s.is_pending_bomb_tile x y then 0
    else
      match marking with
      | Marking.ok => 3 / 2
      | Marking.right => 1
      | Marking.left => 1
      | Marking.animating => 3 / 10
      | Marking.none => 1
  { x := px, y := final_y, rot_angle := rot_angle, scale := 1
    sprite_id := sprite_id, alpha := alpha, flags := 1, atlas_row := ATLAS_ROW_NORMAL }

/-- Tile records of rebuild_render_buffer: column-major, one record per
occupied cell (empty cells emit nothing). -/
def tileInsts (s : GameState) : List RenderInstance :=
  (List.range s.board.width).flatMap (fun x =>
    (List.range s.board.height).filterMap (fun y =>
      match s.board.grid.get x y with
      | Option.some tile => Option.some (tileInst s x y tile)
      | Option.none => Option.none))

/-- Right-pin records of rebuild_render_buffer. -/
def rightPinInsts (s : GameState) : List RenderInstance :=
  (List.range s.board.height).map (fun (y : Nat) =>
    { x := GRID_OFFSET_X + (s.board.width : Rat) * TILE_SIZE + TILE_SIZE * (1 / 2)
      y := GRID_OFFSET_Y + ((y : Nat) : Rat) * TILE_SIZE + TILE_SIZE * (1 / 2)
      rot_angle := 0
      scale := 1
      sprite_id := ATLAS_COL_RIGHT_PIN
      alpha := 1
      flags := 1
      atlas_row := ATLAS_ROW_PINS })

/-- Bonus records of rebuild_render_buffer (falling then landed). -/
def bonusInsts (s : GameState) : List RenderInstance :=
  s.bonuses.all_bonuses.map (fun bonus =>
    let uv := bonus.atlas_uv
    { x := GRID_OFFSET_X + (bonus.tile_x : Rat) * TILE_SIZE + TILE_SIZE * (1 / 2)
      y := bonus.current_y
      rot_angle := bonus.rot_angle
      scale := bonus.scale * bonus.base_scale * bonus.pulse_scale
      sprite_id := uv.1
      alpha := bonus.alpha
      flags := 1
      atlas_row := uv.2 })

/-- Rotation-arrow overlay records of rebuild_render_buffer, emitted only
in the RotatingTile phase. -/
def arrowInsts (s : GameState) : List RenderInstance :=
  if s.phase = GamePhase.rotatingTile then
    s.anims.rotate_anims.map (fun anim =>
      { x := GRID_OFFSET_X + (anim.x : Rat) * TILE_SIZE + TILE_SIZE * (1 / 2)
        y := GRID_OFFSET_Y + (anim.y : Rat) * TILE_SIZE + TILE_SIZE * (1 / 2)
        rot_angle := (s.anims.get_rotation anim.x anim.y).getD 0
        scale := 5 / 2
        sprite_id := if anim.is_bot then 4 else 2
        alpha := 1
        flags := 2
        atlas_row := 0 })
  else []

/-- GameState::rebuild_render_buffer from state.rs: the five push loops in
source order, returned as the new buffer contents. -/
def GameState.rebuild_render_buffer (s : GameState) : List RenderInstance :=
  leftPinInsts s ++ tileInsts s ++ rightPinInsts s ++ bonusInsts s ++ arrowInsts s

/-!  Theorems.  One theorem per claim of the specification, preceded by
the helper lemmas they share. -/

/-- Characterization of pass 3 of check_connections: the result flag is 1
exactly when some row passes the left-pin test, and the two counters add
the number of rows passing each pin test. -/
theorem pinsFoldAux_spec (b : GameBoard) (rows : List Nat) (acc : Int × Nat × Nat) :
    GameBoard.pinsFoldAux b acc rows =
      ((if rows.any b.leftPinOk then 1 else acc.1),
       acc.2.1 + rows.countP b.leftPinOk,
       acc.2.2 + rows.countP b.rightPinOk) := by
  induction rows generalizing acc with
  | nil => simp [GameBoard.pinsFoldAux]
  | cons j rest ih =>
    simp only [GameBoard.pinsFoldAux, ih, List.any_cons, List.countP_cons]
    by_cases h1 : b.leftPinOk j <;> by_cases h2 : b.rightPinOk j <;>
      simp [h1, h2, Prod.ext_iff] <;> omega

/-- A fold preserves any invariant preserved by each step. -/
theorem foldl_preserve {α β : Type} (P : α → Prop) (f : α → β → α) (l : List β) (b : α)
    (h0 : P b) (hstep : ∀ a x, P a → P (f a x)) : P (l.foldl f b) := by
  induction l generalizing b with
  | nil => exact h0
  | cons x rest ih => exact ih (f b x) (hstep b x h0)

/-- The board b' differs from b in its markings at most. -/
def MarkingsOnly (b b' : GameBoard) : Prop := b' = { b with markings := b'.markings }

theorem markingsOnly_refl (b : GameBoard) : MarkingsOnly b b := rfl

theorem markingsOnly_trans {a b c : GameBoard} (h1 : MarkingsOnly a b) (h2 : MarkingsOnly b c) :
    MarkingsOnly a c := by
  unfold MarkingsOnly at *
  rw [h2, h1]

theorem markingsOnly_set_marking (b : GameBoard) (x y : Nat) (m : Marking) :
    MarkingsOnly b (b.set_marking x y m) := rfl

/-- expandLoop touches markings only. -/
theorem expandLoop_markingsOnly (marker : Marking) :
    ∀ (fuel : Nat) (b : GameBoard) (q : List (Nat × Nat × Direction)),
      MarkingsOnly b (GameBoard.expandLoop marker fuel b q) := by
  intro fuel
  induction fuel with
  | zero => intro b q; exact markingsOnly_refl b
  | succ n ih =>
    intro b q
    match q with
    | [] => exact markingsOnly_refl b
    | (x, y, ctype) :: rest =>
      simp only [GameBoard.expandLoop]
      split
      · exact ih b rest
      · split
        · exact ih b rest
        · split
          · split
            · exact markingsOnly_trans (markingsOnly_set_marking b x y marker) (ih _ _)
            · exact ih b rest
          · exact ih b rest

/-- expand_connections_bfs touches markings only. -/
theorem expand_bfs_markingsOnly (b : GameBoard) (cx cy : Nat) (d : Direction) (marker : Marking) :
    MarkingsOnly b (b.expand_connections_bfs cx cy d marker) := by
  unfold GameBoard.expand_connections_bfs
  split
  · exact markingsOnly_refl b
  · exact expandLoop_markingsOnly marker b.bfsFuel b _

/-- The marking-reset pass touches markings only. -/
theorem resetMarkingsPass_markingsOnly (b : GameBoard) : MarkingsOnly b b.resetMarkingsPass := by
  unfold GameBoard.resetMarkingsPass
  refine foldl_preserve (MarkingsOnly b) _ _ b (markingsOnly_refl b) ?_
  intro a j ha
  refine foldl_preserve (MarkingsOnly b) _ _ a ha ?_
  intro a2 i ha2
  split
  · exact markingsOnly_trans ha2 (markingsOnly_set_marking a2 i j Marking.none)
  · exact ha2

/-- The right flood-fill pass touches markings only. -/
theorem rightFillPass_markingsOnly (b : GameBoard) : MarkingsOnly b b.rightFillPass := by
  unfold GameBoard.rightFillPass
  refine foldl_preserve (MarkingsOnly b) _ _ b (markingsOnly_refl b) ?_
  intro a j ha
  split
  · split
    · exact markingsOnly_trans ha (expand_bfs_markingsOnly _ _ _ _ _)
    · exact ha
  · exact ha

/-- The left flood-fill pass touches markings only. -/
theorem leftFillPass_markingsOnly (b : GameBoard) : MarkingsOnly b b.leftFillPass := by
  unfold GameBoard.leftFillPass
  refine foldl_preserve (MarkingsOnly b) _ _ b (markingsOnly_refl b) ?_
  intro a j ha
  split
  · split
    · exact markingsOnly_trans ha (expand_bfs_markingsOnly _ _ _ _ _)
    · exact ha
  · exact ha

/-- The state after the fills differs from the input board only in its
markings and in the two pin counters (zeroed). -/
theorem afterFills_eq (b : GameBoard) :
    b.afterFills
      = { b with
          markings := b.afterFills.markings
          left_pins_connect := 0
          right_pins_connect := 0 } := by
  have h0 : MarkingsOnly { b with left_pins_connect := 0, right_pins_connect := 0 } b.afterFills := by
    exact markingsOnly_trans
      (markingsOnly_trans (resetMarkingsPass_markingsOnly _) (rightFillPass_markingsOnly _))
      (leftFillPass_markingsOnly _)
  exact h0

theorem afterFills_height (b : GameBoard) : b.afterFills.height = b.height := by
  rw [afterFills_eq b]

/-- C1: check_connections returns 1 iff some left-edge cell (0, j) holds a
tile with a left-facing connection and is marked Ok after the two flood
fills (equivalently, in the returned board: pass 3 does not modify
markings), and left_pins_connect / right_pins_connect count exactly the
rows whose left-edge / right-edge tile has the edge-facing connection and
is marked Ok. -/
theorem check_connections_result_spec (b : GameBoard) :
    (b.check_connections.1 = 1 ↔ ∃ j, j < b.height ∧ b.check_connections.2.leftPinOk j = true) ∧
    b.check_connections.2.left_pins_connect
      = (List.range b.height).countP b.check_connections.2.leftPinOk ∧
    b.check_connections.2.right_pins_connect
      = (List.range b.height).countP b.check_connections.2.rightPinOk := by
  have hpinL : ∀ j, b.check_connections.2.leftPinOk j = b.afterFills.leftPinOk j := fun _ => rfl
  have hpinR : ∀ j, b.check_connections.2.rightPinOk j = b.afterFills.rightPinOk j := fun _ => rfl
  have hh : b.afterFills.height = b.height := afterFills_height b
  have hres : b.check_connections.1
      = (b.afterFills.pinsFoldAux (0, 0, 0) (List.range b.afterFills.height)).1 := rfl
  have hlp : b.check_connections.2.left_pins_connect
      = (b.afterFills.pinsFoldAux (0, 0, 0) (List.range b.afterFills.height)).2.1 := rfl
  have hrp : b.check_connections.2.right_pins_connect
      = (b.afterFills.pinsFoldAux (0, 0, 0) (List.range b.afterFills.height)).2.2 := rfl
  rw [pinsFoldAux_spec] at hres hlp hrp
  refine ⟨?_, ?_, ?_⟩
  · rw [hres, hh]
    by_cases hany : (List.range b.height).any b.afterFills.leftPinOk
    · simp only [hany, if_true]
      rw [List.any_eq_true] at hany
      obtain ⟨j, hj, hok⟩ := hany
      simp only [List.mem_range] at hj
      refine Iff.intro (fun _ => ⟨j, hj, by rw [hpinL]; exact hok⟩) (fun _ => by norm_num)
    · simp only [hany, if_false]
      constructor
      · intro h0; exact absurd h0 (by decide)
      · rintro ⟨j, hj, hok⟩
        rw [hpinL] at hok
        exact absurd (List.any_eq_true.mpr ⟨j, List.mem_range.mpr hj, hok⟩) (by simp [hany])
  · rw [hlp, hh]
    simp only [Nat.zero_add]
    exact List.countP_congr (fun j _ => by rw [hpinL])
  · rw [hrp, hh]
    simp only [Nat.zero_add]
    exact List.countP_congr (fun j _ => by rw [hpinR])

/-- C3: Tile::rotate cyclically left-shifts the 4-bit mask, mapping the
right bit to up, up to left, left to down and down to right; four
applications are the identity on every stored mask in [0,15]; and applied
to the out-of-range stored mask 0xFF it yields a value in [0,15]. -/
theorem tile_rotate_spec :
    (∀ c : Nat, c < 16 →
      ((Tile.mk c).rotate.has_connection Direction.UP = (Tile.mk c).has_connection Direction.RIGHT ∧
       (Tile.mk c).rotate.has_connection Direction.LEFT = (Tile.mk c).has_connection Direction.UP ∧
       (Tile.mk c).rotate.has_connection Direction.DOWN = (Tile.mk c).has_connection Direction.LEFT ∧
       (Tile.mk c).rotate.has_connection Direction.RIGHT = (Tile.mk c).has_connection Direction.DOWN) ∧
      (Tile.mk c).rotate.rotate.rotate.rotate = Tile.mk c) ∧
    (Tile.mk 0xFF).rotate.connections ≤ 15 := by
  decide

/-- Witness for tile_rotate_spec at the concrete mask 5 (LEFT+RIGHT). -/
theorem tile_rotate_spec_witness :
    5 < 16 ∧ (Tile.mk 5).rotate.rotate.rotate.rotate = Tile.mk 5 :=
  ⟨by decide, (tile_rotate_spec.1 5 (by decide)).2⟩

/-- C4: calculate_bonus_drops starts from 2 one-point coins and each side
independently contributes: pins > 6 gives one extra one-point coin, three
two-point coins and (pins - 6) five-point coins; otherwise pins > 3 gives
one extra one-point coin and (pins - 3) two-point coins.  The three
concrete values of the specification follow. -/
theorem calculate_bonus_drops_spec :
    (∀ l r : Nat,
      calculate_bonus_drops l r =
        (2 + (if l > 6 then 1 else if l > 3 then 1 else 0)
           + (if r > 6 then 1 else if r > 3 then 1 else 0),
         (if l > 6 then 3 else if l > 3 then l - 3 else 0)
           + (if r > 6 then 3 else if r > 3 then r - 3 else 0),
         (if l > 6 then l - 6 else 0) + (if r > 6 then r - 6 else 0))) ∧
    calculate_bonus_drops 0 0 = (2, 0, 0) ∧
    calculate_bonus_drops 5 0 = (3, 2, 0) ∧
    calculate_bonus_drops 8 9 = (4, 6, 5) := by
  refine ⟨?_, by decide, by decide, by decide⟩
  intro l r
  simp only [calculate_bonus_drops]
  split_ifs <;> simp [Prod.ext_iff]

/-- C10: Rng::new normalizes a zero seed to state 1, so the seeds 0 and 1
yield equal generators (hence identical next_u64 and next_int output
sequences), while every nonzero seed starts exactly from that seed. -/
theorem rng_new_zero_seed_spec :
    Rng.new 0 = Rng.new 1 ∧
    (∀ n : Nat, (Rng.new 0).nthOutput n = (Rng.new 1).nthOutput n) ∧
    (∀ ub : Nat, (Rng.new 0).next_int ub = (Rng.new 1).next_int ub) ∧
    (∀ seed : Nat, seed ≠ 0 → (Rng.new seed).state = seed) := by
  refine ⟨rfl, fun _ => rfl, fun _ => rfl, fun seed h => ?_⟩
  simp [Rng.new, h]

/-- Witness for rng_new_zero_seed_spec at the concrete seed 7. -/
theorem rng_new_zero_seed_spec_witness : (7 : Nat) ≠ 0 ∧ (Rng.new 7).state = 7 :=
  ⟨by decide, rng_new_zero_seed_spec.2.2.2 7 (by decide)⟩

/-- Relation left by the marking-reset pass: each marking entry is either
untouched, or has been overwritten with None — and the latter only
happens to entries that did not hold Animating. -/
def RelReset (b b' : GameBoard) : Prop :=
  ∀ i : Nat,
    b'.markings.get? i = b.markings.get? i ∨
    (b'.markings.get? i = Option.some Marking.none ∧
     b.markings.get? i ≠ Option.some Marking.animating)

/-- Relation left by the flood fills: each marking entry is either
untouched or has been overwritten with Left, Right or Ok. -/
def RelFill (b b' : GameBoard) : Prop :=
  ∀ i : Nat,
    b'.markings.get? i = b.markings.get? i ∨
    b'.markings.get? i = Option.some Marking.left ∨
    b'.markings.get? i = Option.some Marking.right ∨
    b'.markings.get? i = Option.some Marking.ok

theorem relFill_refl (b : GameBoard) : RelFill b b := fun _ => Or.inl rfl

theorem relFill_trans {a b c : GameBoard} (h1 : RelFill a b) (h2 : RelFill b c) : RelFill a c := by
  intro i
  rcases h2 i with h | h | h | h
  · rw [h]; exact h1 i
  · exact Or.inr (Or.inl h)
  · exact Or.inr (Or.inr (Or.inl h))
  · exact Or.inr (Or.inr (Or.inr h))

/-- Writing a Left/Right/Ok marking respects RelFill. -/
theorem relFill_set_marking (b : GameBoard) (x y : Nat) (m : Marking)
    (hm : m = Marking.left ∨ m = Marking.right ∨ m = Marking.ok) :
    RelFill b (b.set_marking x y m) := by
  intro i
  simp only [GameBoard.set_marking, List.get?_set]
  by_cases h : b.marking_idx x y = i
  · simp only [h, if_true]
    cases hget : b.markings.get? i with
    | none => simp
    | some v =>
      rcases hm with hm | hm | hm <;> simp [hm]
  · simp [h]

/-- The BFS loop only writes its marker, which is Left, Right or Ok. -/
theorem expandLoop_relFill (marker : Marking)
    (hm : marker = Marking.left ∨ marker = Marking.right ∨ marker = Marking.ok) :
    ∀ (fuel : Nat) (b : GameBoard) (q : List (Nat × Nat × Direction)),
      RelFill b (GameBoard.expandLoop marker fuel b q) := by
  intro fuel
  induction fuel with
  | zero => intro b q; exact relFill_refl b
  | succ n ih =>
    intro b q
    match q with
    | [] => exact relFill_refl b
    | (x, y, ctype) :: rest =>
      simp only [GameBoard.expandLoop]
      split
      · exact ih b rest
      · split
        · exact ih b rest
        · split
          · split
            · exact relFill_trans (relFill_set_marking b x y marker hm) (ih _ _)
            · exact ih b rest
          · exact ih b rest

/-- expand_connections_bfs leaves RelFill: its guard rejects the None and
Animating markers, and every other marker is Left, Right or Ok. -/
theorem expand_bfs_relFill (b : GameBoard) (cx cy : Nat) (d : Direction) (marker : Marking) :
    RelFill b (b.expand_connections_bfs cx cy d marker) := by
  unfold GameBoard.expand_connections_bfs
  split
  · exact relFill_refl b
  · rename_i hguard
    have hm : marker = Marking.left ∨ marker = Marking.right ∨ marker = Marking.ok := by
      cases marker <;> simp_all
    exact expandLoop_relFill marker hm b.bfsFuel b _

/-- Both flood-fill passes leave RelFill. -/
theorem rightFillPass_relFill (b : GameBoard) : RelFill b b.rightFillPass := by
  unfold GameBoard.rightFillPass
  refine foldl_preserve (RelFill b) _ _ b (relFill_refl b) ?_
  intro a j ha
  split
  · split
    · exact relFill_trans ha (expand_bfs_relFill _ _ _ _ _)
    · exact ha
  · exact ha

theorem leftFillPass_relFill (b : GameBoard) : RelFill b b.leftFillPass := by
  unfold GameBoard.leftFillPass
  refine foldl_preserve (RelFill b) _ _ b (relFill_refl b) ?_
  intro a j ha
  split
  · split
    · exact relFill_trans ha (expand_bfs_relFill _ _ _ _ _)
    · exact ha
  · exact ha

/-- The marking-reset pass leaves RelReset. -/
theorem resetMarkingsPass_relReset (b : GameBoard) : RelReset b b.resetMarkingsPass := by
  unfold GameBoard.resetMarkingsPass
  refine foldl_preserve (RelReset b) _ _ b (fun _ => Or.inl rfl) ?_
  intro a j ha
  refine foldl_preserve (RelReset b) _ _ a ha ?_
  intro a2 i ha2
  split
  · rename_i hcur
    intro idx
    simp only [GameBoard.set_marking, List.get?_set]
    by_cases hi : a2.marking_idx i j = idx
    · simp only [hi, if_true]
      cases hget : a2.markings.get? idx with
      | none =>
        rcases ha2 idx with h | h
        · rw [hget] at h
          exact Or.inl (by rw [← h]; rfl)
        · rw [hget] at h
          exact absurd h.1 (by simp)
      | some v =>
        refine Or.inr ⟨by simp, ?_⟩
        have hv : v ≠ Marking.animating := by
          have hcur' : (a2.markings.get? idx).getD Marking.none ≠ Marking.animating := by
            rw [← hi]; exact hcur
          rw [hget] at hcur'
          simpa using hcur'
        rcases ha2 idx with h | h
        · rw [← h, hget]
          simp [hv]
        · exact h.2
    · simpa [hi] using ha2 idx
  · exact ha2

/-- Composition: after check_connections each marking entry is either
untouched, rewritten to Left/Right/Ok by a fill, or reset to None — and a
reset to None only happens to entries that were not Animating. -/
theorem check_connections_marking_rel (b : GameBoard) :
    ∀ i : Nat,
      b.check_connections.2.markings.get? i = b.markings.get? i ∨
      b.check_connections.2.markings.get? i = Option.some Marking.left ∨
      b.check_connections.2.markings.get? i = Option.some Marking.right ∨
      b.check_connections.2.markings.get? i = Option.some Marking.ok ∨
      (b.check_connections.2.markings.get? i = Option.some Marking.none ∧
       b.markings.get? i ≠ Option.some Marking.animating) := by
  intro i
  have hmk : b.check_connections.2.markings = b.afterFills.markings := rfl
  set b0 : GameBoard := { b with left_pins_connect := 0, right_pins_connect := 0 } with hb0
  have h0 : b0.markings = b.markings := rfl
  have h1 : RelReset b0 b0.resetMarkingsPass := resetMarkingsPass_relReset b0
  have h2 : RelFill b0.resetMarkingsPass b0.resetMarkingsPass.rightFillPass :=
    rightFillPass_relFill _
  have h3 : RelFill b0.resetMarkingsPass.rightFillPass b.afterFills := leftFillPass_relFill _
  have h23 : RelFill b0.resetMarkingsPass b.afterFills := relFill_trans h2 h3
  rw [hmk]
  rcases h23 i with h | h | h | h
  · rw [h]
    rcases h1 i with h' | h'
    · rw [h', h0]; exact Or.inl rfl
    · rw [h0] at h'
      exact Or.inr (Or.inr (Or.inr (Or.inr h')))
  · exact Or.inr (Or.inl h)
  · exact Or.inr (Or.inr (Or.inl h))
  · exact Or.inr (Or.inr (Or.inr (Or.inl h)))

/-- Counterexample board for the claim that Animating cells survive a
connectivity check: a 1x1 board whose only cell holds a LEFT+RIGHT tile
and is marked Animating. -/
def animBoard : GameBoard :=
  { width := 1
    height := 1
    grid := { width := 1, height := 1, tiles := [Option.some (Tile.mk 5)] }
    markings := [Marking.animating]
    multiplier_left := [1]
    multiplier_right := [1]
    rng := { state := 1 }
    left_pins_connect := 0
    right_pins_connect := 0
    left_conquered := 0
    right_conquered := 0
    missing_links := 0
    new_elements := 0
    missing_link_elements := 0 }

/-- C6 counterexample: the cell (0,0) of animBoard is marked Animating
before check_connections but holds Ok (not Animating) afterwards — the
flood fill overwrites reachable Animating cells. -/
theorem check_connections_animating_counterexample :
    animBoard.get_marking 0 0 = Marking.animating ∧
    animBoard.check_connections.2.get_marking 0 0 = Marking.ok ∧
    animBoard.check_connections.2.get_marking 0 0 ≠ Marking.animating := by
  refine ⟨by decide, by decide, by decide⟩

/-- C6 (amended): the reset pass of check_connections preserves Animating
cells (only non-Animating cells are reset to None), but the flood fills
may overwrite an Animating cell that they reach: after check_connections
a cell is marked Animating only if it was Animating before, a previously
Animating cell ends marked Animating, Left, Right or Ok (never reset to
None), and a cell not marked Animating before is never Animating after. -/
theorem check_connections_animating_spec (b : GameBoard) (x y : Nat) :
    (b.check_connections.2.get_marking x y = Marking.animating →
      b.get_marking x y = Marking.animating) ∧
    (b.get_marking x y = Marking.animating →
      (b.check_connections.2.get_marking x y = Marking.animating ∨
       b.check_connections.2.get_marking x y = Marking.left ∨
       b.check_connections.2.get_marking x y = Marking.right ∨
       b.check_connections.2.get_marking x y = Marking.ok)) ∧
    (b.get_marking x y ≠ Marking.animating →
      b.check_connections.2.get_marking x y ≠ Marking.animating) := by
  have hh : b.check_connections.2.height = b.height := afterFills_height b
  have hidx : b.check_connections.2.marking_idx x y = b.marking_idx x y := by
    simp [GameBoard.marking_idx, hh]
  have hrel := check_connections_marking_rel b (b.marking_idx x y)
  have hget : b.check_connections.2.get_marking x y
      = (b.check_connections.2.markings.get? (b.marking_idx x y)).getD Marking.none := by
    simp [GameBoard.get_marking, hidx]
  have hget0 : b.get_marking x y = (b.markings.get? (b.marking_idx x y)).getD Marking.none := rfl
  refine ⟨?_, ?_, ?_⟩
  · intro hafter
    rw [hget0]
    rw [hget] at hafter
    rcases hrel with h | h | h | h | h
    · rw [← h]; exact hafter
    · rw [h] at hafter; simp at hafter
    · rw [h] at hafter; simp at hafter
    · rw [h] at hafter; simp at hafter
    · rw [h.1] at hafter; simp at hafter
  · intro hbefore
    rw [hget0] at hbefore
    rw [hget]
    rcases hrel with h | h | h | h | h
    · rw [h]; exact Or.inl hbefore
    · rw [h]; exact Or.inr (Or.inl rfl)
    · rw [h]; exact Or.inr (Or.inr (Or.inl rfl))
    · rw [h]; exact Or.inr (Or.inr (Or.inr rfl))
    · exfalso
      apply h.2
      cases hget2 : b.markings.get? (b.marking_idx x y) with
      | none => rw [hget2] at hbefore; simp at hbefore
      | some v =>
        rw [hget2] at hbefore
        simp only [Option.getD_some] at hbefore
        rw [hbefore]
  · intro hbefore hafter
    rw [hget0] at hbefore
    rw [hget] at hafter
    rcases hrel with h | h | h | h | h
    · rw [h] at hafter; exact hbefore hafter
    · rw [h] at hafter; simp at hafter
    · rw [h] at hafter; simp at hafter
    · rw [h] at hafter; simp at hafter
    · rw [h.1] at hafter; simp at hafter

/-- Witness for check_connections_animating_spec: a 1x1 board whose cell
is not Animating keeps a non-Animating marking across the check. -/
theorem check_connections_animating_spec_witness :
    ((animBoard.set_marking 0 0 Marking.none).get_marking 0 0 ≠ Marking.animating) ∧
    (animBoard.set_marking 0 0 Marking.none).check_connections.2.get_marking 0 0
      ≠ Marking.animating :=
  ⟨by decide,
   (check_connections_animating_spec (animBoard.set_marking 0 0 Marking.none) 0 0).2.2 (by decide)⟩

/-- A flat column-major index of an in-range cell is below width*height. -/
theorem flatIdx_lt {w h x y : Nat} (hx : x < w) (hy : y < h) : x * h + y < w * h := by
  have h1 : x * h + y < (x + 1) * h := by
    have : (x + 1) * h = x * h + h := by ring
    omega
  have h2 : (x + 1) * h ≤ w * h := Nat.mul_le_mul_right h hx
  omega

/-- Flat column-major indices are injective on in-range row coordinates. -/
theorem flatIdx_inj {h x y x' y' : Nat} (hy : y < h) (hy' : y' < h)
    (heq : x * h + y = x' * h + y') : x = x' ∧ y = y' := by
  have h0 : 0 < h := by omega
  have hyy : y = y' := by
    have e1 : (x * h + y) % h = y := by
      rw [Nat.mul_comm x h, Nat.mul_add_mod]; exact Nat.mod_eq_of_lt hy
    have e2 : (x' * h + y') % h = y' := by
      rw [Nat.mul_comm x' h, Nat.mul_add_mod]; exact Nat.mod_eq_of_lt hy'
    rw [← e1, ← e2, heq]
  refine ⟨?_, hyy⟩
  have hx : x * h = x' * h := by omega
  exact Nat.eq_of_mul_eq_mul_right (by omega) hx

/-- Concrete 3-wide, 2-high grid with six distinct tiles, used to exhibit
the missing bounds check of Grid::idx. -/
def aliasGrid : Grid :=
  { width := 3
    height := 2
    tiles :=
      [Option.some (Tile.new 1), Option.some (Tile.new 2), Option.some (Tile.new 3),
       Option.some (Tile.new 4), Option.some (Tile.new 5), Option.some (Tile.new 6)] }

/-- C8 counterexample: the malformed coordinates (0, 5) on aliasGrid
(height 2) are not rejected: Grid::get silently returns the tile stored
at the distinct in-range cell (2, 1), and the fully out-of-storage
coordinates (0, 6) panic instead of being rejected. -/
theorem grid_bounds_counterexample :
    ¬ (5 < aliasGrid.height) ∧
    aliasGrid.getRaw 0 5 = Option.some (Option.some (Tile.new 6)) ∧
    aliasGrid.getRaw 0 5 = aliasGrid.getRaw 2 1 ∧
    2 < aliasGrid.width ∧ 1 < aliasGrid.height ∧
    aliasGrid.getRaw 0 5 ≠ Option.some Option.none ∧
    aliasGrid.getRaw 0 6 = Option.none := by
  decide

/-- C8 (amended): Grid::idx computes x*height+y with no bounds check, so
the accessors address exactly the intended cell when x < width and
y < height (and Grid::set then writes no other in-range cell), but they
do not reject malformed coordinates: any pair whose flat index is still
below width*height silently aliases the distinct cell at that flat index,
and any pair whose flat index reaches width*height panics.  The marking
accessors of GameBoard behave the same way on the markings array. -/
theorem grid_bounds_amended :
    (∀ g : Grid, g.tiles.length = g.width * g.height → 0 < g.height →
      (∀ x y, x < g.width → y < g.height →
        (∃ v, g.getRaw x y = Option.some v) ∧
        (∀ t, (g.set x y t).getRaw x y = Option.some t) ∧
        (∀ t x' y', y' < g.height → ¬(x' = x ∧ y' = y) →
          (g.set x y t).getRaw x' y' = g.getRaw x' y')) ∧
      (∀ x y, x * g.height + y < g.width * g.height →
        g.getRaw x y
          = g.getRaw ((x * g.height + y) / g.height) ((x * g.height + y) % g.height) ∧
        (x * g.height + y) / g.height < g.width ∧
        (x * g.height + y) % g.height < g.height) ∧
      (∀ x y, g.width * g.height ≤ x * g.height + y → g.getRaw x y = Option.none)) ∧
    (∀ b : GameBoard, b.markings.length = b.width * b.height →
      (∀ x y, x < b.width → y < b.height → ∃ m, b.get_markingRaw x y = Option.some m) ∧
      (∀ x y, b.width * b.height ≤ x * b.height + y → b.get_markingRaw x y = Option.none)) := by
  constructor
  · intro g hlen h0
    refine ⟨?_, ?_, ?_⟩
    · intro x y hx hy
      have hidx : g.idx x y < g.tiles.length := by
        rw [hlen]; exact flatIdx_lt hx hy
      refine ⟨?_, ?_, ?_⟩
      · cases hv : g.tiles.get? (g.idx x y) with
        | none =>
          rw [List.get?_eq_none] at hv
          omega
        | some v => exact ⟨v, hv⟩
      · intro t
        simp only [Grid.set, Grid.getRaw]
        exact List.get?_set_eq_of_lt t hidx
      · intro t x' y' hy' hne
        simp only [Grid.set, Grid.getRaw]
        refine List.get?_set_ne t _ ?_
        intro heq
        obtain ⟨hxx, hyy⟩ := flatIdx_inj hy hy' heq
        exact hne ⟨hxx.symm, hyy.symm⟩
    · intro x y hxy
      have hy' : (x * g.height + y) % g.height < g.height := Nat.mod_lt _ h0
      have hx' : (x * g.height + y) / g.height < g.width := by
        rw [Nat.div_lt_iff_lt_mul h0]
        calc x * g.height + y < g.width * g.height := hxy
          _ = g.height * g.width := Nat.mul_comm _ _
          _ ≤ g.width * g.height := by rw [Nat.mul_comm]
      refine ⟨?_, hx', hy'⟩
      have hsame : g.idx ((x * g.height + y) / g.height) ((x * g.height + y) % g.height)
          = g.idx x y := by
        simp only [Grid.idx]
        rw [Nat.mul_comm ((x * g.height + y) / g.height) g.height]
        exact Nat.div_add_mod (x * g.height + y) g.height
      simp only [Grid.getRaw, hsame]
    · intro x y hxy
      simp only [Grid.getRaw, Grid.idx]
      rw [List.get?_eq_none]
      omega
  · intro b hlen
    constructor
    · intro x y hx hy
      have hidx : b.marking_idx x y < b.markings.length := by
        rw [hlen]; exact flatIdx_lt hx hy
      cases hm : b.markings.get? (b.marking_idx x y) with
      | none =>
        rw [List.get?_eq_none] at hm
        omega
      | some m => exact ⟨m, hm⟩
    · intro x y hxy
      simp only [GameBoard.get_markingRaw, GameBoard.marking_idx]
      rw [List.get?_eq_none]
      omega

/-- Witness for grid_bounds_amended at aliasGrid: the in-range cell (1, 1)
is addressed exactly, and the malformed pair (0, 5) aliases flat index 5,
that is, cell (2, 1). -/
theorem grid_bounds_amended_witness :
    aliasGrid.tiles.length = aliasGrid.width * aliasGrid.height ∧
    (∃ v, aliasGrid.getRaw 1 1 = Option.some v) ∧
    aliasGrid.getRaw 0 5 = aliasGrid.getRaw ((0 * 2 + 5) / 2) ((0 * 2 + 5) % 2) := by
  refine ⟨by decide, ?_, ?_⟩
  · exact ((grid_bounds_amended.1 aliasGrid (by decide) (by decide)).1 1 1 (by decide) (by decide)).1
  · exact ((grid_bounds_amended.1 aliasGrid (by decide) (by decide)).2.1 0 5 (by decide)).1

/-- Running maximum of trial scores, seeded with the initial best score. -/
def maxScore {α : Type} (s0 : Int) (l : List (α × Int)) : Int :=
  l.foldl (fun m p => max m p.2) s0

theorem maxScore_cons {α : Type} (s0 : Int) (a : α) (s : Int) (rest : List (α × Int)) :
    maxScore s0 ((a, s) :: rest) = maxScore (max s0 s) rest := rfl

theorem le_maxScore_init {α : Type} (s0 : Int) (l : List (α × Int)) : s0 ≤ maxScore s0 l := by
  induction l generalizing s0 with
  | nil => exact le_refl s0
  | cons p rest ih =>
    calc s0 ≤ max s0 p.2 := le_max_left _ _
      _ ≤ maxScore (max s0 p.2) rest := ih _

theorem le_maxScore_mem {α : Type} {s0 : Int} {l : List (α × Int)} {p : α × Int}
    (hp : p ∈ l) : p.2 ≤ maxScore s0 l := by
  induction l generalizing s0 with
  | nil => cases hp
  | cons q rest ih =>
    rcases List.mem_cons.mp hp with h | h
    · subst h
      calc p.2 ≤ max s0 p.2 := le_max_right _ _
        _ ≤ maxScore (max s0 p.2) rest := le_maxScore_init _ _
    · exact ih h

theorem maxScore_attained {α : Type} (s0 : Int) (l : List (α × Int)) :
    maxScore s0 l = s0 ∨ ∃ p ∈ l, p.2 = maxScore s0 l := by
  induction l generalizing s0 with
  | nil => exact Or.inl rfl
  | cons q rest ih =>
    rcases ih (max s0 q.2) with h | ⟨p, hp, he⟩
    · rcases le_total q.2 s0 with hle | hle
      · exact Or.inl (by rw [maxScore_cons, ← Prod.mk.eta (p := q)] at *; rw [h, max_eq_left hle])
      · refine Or.inr ⟨q, List.mem_cons_self q rest, ?_⟩
        rw [← Prod.mk.eta (p := q), maxScore_cons, h, max_eq_right hle]
    · exact Or.inr ⟨p, List.mem_cons_of_mem q hp, by rw [← Prod.mk.eta (p := q), maxScore_cons]; exact he⟩

theorem bestFoldAux_snd {α : Type} (l : List (α × Int)) :
    ∀ (b0 : Option α) (s0 : Int), (bestFoldAux (b0, s0) l).2 = maxScore s0 l := by
  induction l with
  | nil => intro b0 s0; rfl
  | cons q rest ih =>
    intro b0 s0
    rw [← Prod.mk.eta (p := q), maxScore_cons]
    simp only [bestFoldAux]
    by_cases hc : s0 < q.2
    · rw [if_pos hc, ih, max_eq_right (le_of_lt hc)]
    · rw [if_neg hc, ih, max_eq_left (not_lt.mp hc)]

theorem bestFoldAux_fst_of_all_le {α : Type} {l : List (α × Int)} {s0 : Int}
    (h : ∀ p ∈ l, p.2 ≤ s0) : ∀ b0 : Option α, (bestFoldAux (b0, s0) l).1 = b0 := by
  induction l with
  | nil => intro b0; rfl
  | cons q rest ih =>
    intro b0
    have hq : q.2 ≤ s0 := h q (List.mem_cons_self q rest)
    rw [← Prod.mk.eta (p := q)]
    simp only [bestFoldAux, not_lt.mpr hq, if_neg (not_lt.mpr hq)]
    exact ih (fun p hp => h p (List.mem_cons_of_mem q hp)) b0

/-- The best-so-far fold returns the first trial attaining the maximal
score, whenever some trial beats the initial best score. -/
theorem bestFoldAux_eq_find {α : Type} :
    ∀ (l : List (α × Int)) (b0 : Option α) (s0 : Int), s0 < maxScore s0 l →
      bestFoldAux (b0, s0) l
        = (Option.map Prod.fst (l.find? (fun p => decide (maxScore s0 l ≤ p.2))),
           maxScore s0 l) := by
  intro l
  induction l with
  | nil => intro b0 s0 h; exact absurd h (by simp [maxScore])
  | cons q rest ih =>
    intro b0 s0 h
    obtain ⟨a, s⟩ := q
    rw [maxScore_cons] at h
    by_cases hc : s0 < s
    · have hmax : max s0 s = s := max_eq_right (le_of_lt hc)
      rw [hmax] at h
      by_cases hr : maxScore s rest ≤ s
      · have hms : maxScore s rest = s := le_antisymm hr (le_maxScore_init _ _)
        have hfind : ((a, s) :: rest).find? (fun p => decide (maxScore s rest ≤ p.2))
            = Option.some (a, s) := by
          rw [List.find?_cons_of_pos]
          simp [hms]
        rw [maxScore_cons, hmax, hfind]
        simp only [bestFoldAux, if_pos hc, Option.map_some']
        refine Prod.ext ?_ ?_
        · exact bestFoldAux_fst_of_all_le (fun p hp => by rw [← hms]; exact le_maxScore_mem hp) _
        · rw [bestFoldAux_snd, hms]
      · have hlt : s < maxScore s rest := not_le.mp hr
        have hfind : ((a, s) :: rest).find? (fun p => decide (maxScore s rest ≤ p.2))
            = rest.find? (fun p => decide (maxScore s rest ≤ p.2)) := by
          rw [List.find?_cons_of_neg]
          simp [not_le.mpr hlt]
        rw [maxScore_cons, hmax, hfind]
        simp only [bestFoldAux, if_pos hc]
        exact ih (Option.some a) s hlt
    · have hmax : max s0 s = s0 := max_eq_left (not_lt.mp hc)
      rw [hmax] at h
      have hs : s ≤ s0 := not_lt.mp hc
      have hfind : ((a, s) :: rest).find? (fun p => decide (maxScore s0 rest ≤ p.2))
          = rest.find? (fun p => decide (maxScore s0 rest ≤ p.2)) := by
        rw [List.find?_cons_of_neg]
        simp only [decide_eq_true_eq, not_le]
        omega
      rw [maxScore_cons, hmax, hfind]
      simp only [bestFoldAux, if_neg hc]
      exact ih b0 s0 h

/-- Concrete 3x1 board [LEFT+RIGHT, UP+DOWN, LEFT+RIGHT] from the bot
specification test. -/
def botExampleBoard : GameBoard :=
  { width := 3
    height := 1
    grid :=
      { width := 3, height := 1
        tiles := [Option.some (Tile.mk 5), Option.some (Tile.mk 10), Option.some (Tile.mk 5)] }
    markings := [Marking.none, Marking.none, Marking.none]
    multiplier_left := [1]
    multiplier_right := [1]
    rng := { state := 1 }
    left_pins_connect := 0
    right_pins_connect := 0
    left_conquered := 0
    right_conquered := 0
    missing_links := 0
    new_elements := 0
    missing_link_elements := 0 }

/-- Concrete 3x1 board of three identical single-connection (UP) tiles. -/
def botSinglesBoard : GameBoard :=
  { botExampleBoard with
    grid :=
      { width := 3, height := 1
        tiles := [Option.some (Tile.mk 2), Option.some (Tile.mk 2), Option.some (Tile.mk 2)] } }

/-- C5: determine_next_move scans cells in column-major order, skips
single- and full-connection tiles, and scores 1, 2 and 3 cumulative
rotations of each candidate on a cloned board (the trial list botTrials,
built exactly that way with the evaluate_connections scoring of the
source); it returns None exactly when no trial scores above 0, and
otherwise the first trial attaining the maximal score; on the concrete
boards of the specification it returns (1,0,1) and None respectively. -/
theorem determine_next_move_spec :
    (∀ b : GameBoard,
      (BotPlayer.determine_next_move b = Option.none ↔ ∀ p ∈ botTrials b, p.2 ≤ 0) ∧
      (0 < maxScore 0 (botTrials b) →
        BotPlayer.determine_next_move b
          = Option.map Prod.fst
              ((botTrials b).find? (fun p => decide (maxScore 0 (botTrials b) ≤ p.2))))) ∧
    BotPlayer.determine_next_move botExampleBoard = Option.some ⟨1, 0, 1⟩ ∧
    BotPlayer.determine_next_move botSinglesBoard = Option.none := by
  refine ⟨?_, by decide, by decide⟩
  intro b
  have hfind : 0 < maxScore 0 (botTrials b) →
      BotPlayer.determine_next_move b
        = Option.map Prod.fst
            ((botTrials b).find? (fun p => decide (maxScore 0 (botTrials b) ≤ p.2))) := by
    intro h
    have := bestFoldAux_eq_find (botTrials b) Option.none 0 h
    unfold BotPlayer.determine_next_move
    rw [this]
  refine ⟨⟨?_, ?_⟩, hfind⟩
  · intro hnone
    by_contra hall
    push_neg at hall
    obtain ⟨p, hp, hpos⟩ := hall
    have hM : 0 < maxScore 0 (botTrials b) := lt_of_lt_of_le hpos (le_maxScore_mem hp)
    rcases maxScore_attained 0 (botTrials b) with h0 | ⟨q, hq, he⟩
    · omega
    · have hfq : ((botTrials b).find? (fun p => decide (maxScore 0 (botTrials b) ≤ p.2))).isSome := by
        rw [List.find?_isSome]
        exact ⟨q, hq, by simp [he]⟩
      rw [hfind hM] at hnone
      cases hfo : (botTrials b).find? (fun p => decide (maxScore 0 (botTrials b) ≤ p.2)) with
      | none => rw [hfo] at hfq; simp at hfq
      | some q' => rw [hfo] at hnone; simp at hnone
  · intro hall
    unfold BotPlayer.determine_next_move
    exact bestFoldAux_fst_of_all_le hall Option.none

/-- Witness for determine_next_move_spec on botExampleBoard: its maximal
trial score 6 is positive and the returned move is the first trial
attaining it. -/
theorem determine_next_move_spec_witness :
    (0 : Int) < maxScore 0 (botTrials botExampleBoard) ∧
    BotPlayer.determine_next_move botExampleBoard
      = Option.map Prod.fst
          ((botTrials botExampleBoard).find?
            (fun p => decide (maxScore 0 (botTrials botExampleBoard) ≤ p.2))) :=
  ⟨by decide, (determine_next_move_spec.1 botExampleBoard).2 (by decide)⟩

/-- A filterMap whose function hits on every member keeps the length. -/
theorem filterMap_length_of_isSome {α β : Type} (f : α → Option β) :
    ∀ l : List α, (∀ a ∈ l, (f a).isSome) → (l.filterMap f).length = l.length := by
  intro l
  induction l with
  | nil => intro _; rfl
  | cons a rest ih =>
    intro h
    obtain ⟨b, hb⟩ := Option.isSome_iff_exists.mp (h a (List.mem_cons_self a rest))
    rw [List.filterMap_cons, hb]
    simp only [List.length_cons]
    rw [ih (fun a' ha' => h a' (List.mem_cons_of_mem a ha'))]

/-- On a fully occupied board the tile segment has width*height records. -/
theorem tileInsts_length_of_full (s : GameState)
    (hfull : ∀ x, x < s.board.width → ∀ y, y < s.board.height →
      (s.board.grid.get x y).isSome = true) :
    (tileInsts s).length = s.board.width * s.board.height := by
  unfold tileInsts
  rw [List.length_flatMap]
  have hx : ∀ x ∈ List.range s.board.width,
      (List.length ∘ fun x => (List.range s.board.height).filterMap (fun y =>
        match s.board.grid.get x y with
        | Option.some tile => Option.some (tileInst s x y tile)
        | Option.none => Option.none)) x = s.board.height := by
    intro x hxmem
    simp only [Function.comp]
    rw [filterMap_length_of_isSome _ _ ?_, List.length_range]
    intro y hymem
    obtain ⟨t, ht⟩ := Option.isSome_iff_exists.mp
      (hfull x (List.mem_range.mp hxmem) y (List.mem_range.mp hymem))
    rw [ht]
    rfl
  rw [List.map_congr_left hx]
  simp [List.sum_replicate, smul_eq_mul]

/-- C7: rebuild_render_buffer emits, in this fixed order: height left-pin
records, one record per occupied tile cell in column-major order, height
right-pin records, all bonus objects, and rotation-arrow overlays only in
the RotatingTile phase; consequently on a fully occupied board with no
bonus objects and a phase other than RotatingTile the buffer length is
width*height + 2*height. -/
theorem rebuild_render_buffer_spec (s : GameState) :
    s.rebuild_render_buffer
      = leftPinInsts s ++ tileInsts s ++ rightPinInsts s ++ bonusInsts s ++ arrowInsts s ∧
    (leftPinInsts s).length = s.board.height ∧
    (rightPinInsts s).length = s.board.height ∧
    (bonusInsts s).length = s.bonuses.falling.length + s.bonuses.landed.length ∧
    (s.phase ≠ GamePhase.rotatingTile → arrowInsts s = []) ∧
    ((∀ x, x < s.board.width → ∀ y, y < s.board.height →
        (s.board.grid.get x y).isSome = true) →
      s.bonuses.falling = [] → s.bonuses.landed = [] →
      s.phase ≠ GamePhase.rotatingTile →
      s.rebuild_render_buffer.length
        = s.board.width * s.board.height + 2 * s.board.height) := by
  have harrow : s.phase ≠ GamePhase.rotatingTile → arrowInsts s = [] := by
    intro h
    unfold arrowInsts
    rw [if_neg h]
  have hlp : (leftPinInsts s).length = s.board.height := by
    unfold leftPinInsts
    rw [List.length_map, List.length_range]
  have hrp : (rightPinInsts s).length = s.board.height := by
    unfold rightPinInsts
    rw [List.length_map, List.length_range]
  refine ⟨rfl, hlp, hrp, ?_, harrow, ?_⟩
  · simp [bonusInsts, BonusState.all_bonuses]
  · intro hfull hf hl hphase
    have htile := tileInsts_length_of_full s hfull
    have hbonus : bonusInsts s = [] := by
      simp [bonusInsts, BonusState.all_bonuses, hf, hl]
    simp only [GameState.rebuild_render_buffer, List.length_append, htile, hbonus,
      harrow hphase, List.length_nil, hlp, hrp]
    ring

/-- Concrete fully occupied 2x2 board for the render-buffer witness. -/
def renderBoard : GameBoard :=
  { width := 2
    height := 2
    grid :=
      { width := 2, height := 2
        tiles := [Option.some (Tile.mk 1), Option.some (Tile.mk 3),
                  Option.some (Tile.mk 5), Option.some (Tile.mk 15)] }
    markings := [Marking.none, Marking.none, Marking.none, Marking.none]
    multiplier_left := [1, 1]
    multiplier_right := [1, 1]
    rng := { state := 1 }
    left_pins_connect := 0
    right_pins_connect := 0
    left_conquered := 0
    right_conquered := 0
    missing_links := 0
    new_elements := 0
    missing_link_elements := 0 }

/-- Concrete game state over renderBoard: no animations, no bonuses,
waiting for input. -/
def renderState : GameState :=
  { board := renderBoard
    phase := GamePhase.waitingForInput
    mode := GameMode.zen
    left_score := 0
    right_score := 0
    bot_enabled := false
    anims := { rotate_anims := [], fall_anims := [], freeze_timer := 0 }
    bonuses := { falling := [], landed := [] }
    pending_bonus := (0, 0, 0)
    pending_bomb_params := Option.none
    pending_tap := Option.none }

/-- Witness for rebuild_render_buffer_spec: on the concrete 2x2 state the
buffer length is 2*2 + 2*2 = 8. -/
theorem rebuild_render_buffer_spec_witness :
    renderState.rebuild_render_buffer.length
      = renderState.board.width * renderState.board.height + 2 * renderState.board.height :=
  (rebuild_render_buffer_spec renderState).2.2.2.2.2 (by decide) rfl rfl (by decide)

/-- Tile::new is the identity on masks that already fit in 4 bits. -/
theorem tile_new_small : ∀ k, k ≤ 15 → (Tile.new k).connections = k := by decide

/-- The reroll loop returns a value in [1,15] whenever it starts there. -/
theorem rerollLoop_range :
    ∀ (fuel k : Nat) (rng : Rng), 1 ≤ k → k ≤ 15 →
      1 ≤ (rerollLoop fuel k rng).1 ∧ (rerollLoop fuel k rng).1 ≤ 15 := by
  intro fuel
  induction fuel with
  | zero => intro k rng h1 h2; exact ⟨h1, h2⟩
  | succ n ih =>
    intro k rng h1 h2
    simp only [rerollLoop]
    split
    · refine ih _ _ ?_ ?_
      · omega
      · have : ((rng.next_u64).1 % 15) < 15 := Nat.mod_lt _ (by omega)
        simp only [Rng.next_int]
        omega
    · exact ⟨h1, h2⟩

/-- get_new_element draws a mask in [1,15]. -/
theorem get_new_element_range (b : GameBoard) :
    1 ≤ (b.get_new_element).1 ∧ (b.get_new_element).1 ≤ 15 := by
  simp only [GameBoard.get_new_element]
  have hmod : ((b.rng.next_u64).1 % 15) < 15 := Nat.mod_lt _ (by omega)
  split
  · refine rerollLoop_range _ _ _ ?_ ?_
    · omega
    · simp only [Rng.next_int]
      omega
  · constructor
    · simp only [Rng.next_int]
      omega
    · simp only [Rng.next_int]
      omega

/-- get_new_element changes only the generator state and the two
dead-end-ratio counters. -/
theorem get_new_element_frame (b : GameBoard) :
    (b.get_new_element).2
      = { b with
          rng := (b.get_new_element).2.rng
          new_elements := (b.get_new_element).2.new_elements
          missing_link_elements := (b.get_new_element).2.missing_link_elements } := rfl

/-- Grid::set followed by Grid::get at the same in-range cell. -/
theorem Grid.get_set_self (g : Grid) (x y : Nat) (t : Option Tile)
    (hx : x < g.width) (hy : y < g.height) (hlen : g.tiles.length = g.width * g.height) :
    (g.set x y t).get x y = t := by
  have hidx : x * g.height + y < g.tiles.length := by
    rw [hlen]; exact flatIdx_lt hx hy
  simp only [Grid.set, Grid.get, Grid.idx]
  rw [List.get?_set_eq_of_lt t hidx]
  rfl

/-- Grid::set leaves every other cell with an in-range row untouched. -/
theorem Grid.get_set_other (g : Grid) {x y x' y' : Nat} (t : Option Tile)
    (hy : y < g.height) (hy' : y' < g.height) (hne : ¬(x' = x ∧ y' = y)) :
    (g.set x y t).get x' y' = g.get x' y' := by
  have hne' : x * g.height + y ≠ x' * g.height + y' := by
    intro heq
    obtain ⟨hxx, hyy⟩ := flatIdx_inj hy hy' heq
    exact hne ⟨hxx.symm, hyy.symm⟩
  simp only [Grid.set, Grid.get, Grid.idx]
  rw [List.get?_set_ne t _ hne']

/-- Positional version of filterMap_length_of_isSome: when the function
hits on every member, the image at position j is the image of the member
at position j. -/
theorem filterMap_get_of_isSome {α β : Type} (f : α → Option β) :
    ∀ (l : List α), (∀ a ∈ l, (f a).isSome) →
      ∀ j a, l.get? j = Option.some a → (l.filterMap f).get? j = f a := by
  intro l
  induction l with
  | nil => intro _ j a h; cases h
  | cons q rest ih =>
    intro h j a hja
    obtain ⟨b, hb⟩ := Option.isSome_iff_exists.mp (h q (List.mem_cons_self q rest))
    rw [List.filterMap_cons, hb]
    cases j with
    | zero =>
      simp only [List.get?] at hja
      cases hja
      simp [hb]
    | succ j' =>
      simp only [List.get?] at hja
      simp only [List.get?]
      exact ih (fun a' ha' => h a' (List.mem_cons_of_mem q ha')) j' a hja

/-- Every survivor collected from a column is a tile of that column. -/
theorem survivorsCol_mem (b : GameBoard) (x : Nat) :
    ∀ t ∈ b.survivorsCol x, ∃ y, y < b.height ∧ b.grid.get x y = Option.some t := by
  intro t ht
  simp only [GameBoard.survivorsCol, List.mem_filterMap] at ht
  obtain ⟨y, hy, hfy⟩ := ht
  refine ⟨y, ?_, ?_⟩
  · rw [List.mem_reverse] at hy
    exact List.mem_range.mp hy
  · by_cases hm : b.get_marking x y ≠ Marking.ok
    · rw [if_pos hm] at hfy; exact hfy
    · rw [if_neg hm] at hfy; cases hfy

/-- A column has at most height survivors. -/
theorem survivorsCol_length_le (b : GameBoard) (x : Nat) :
    (b.survivorsCol x).length ≤ b.height := by
  calc (b.survivorsCol x).length
      ≤ (List.range b.height).reverse.length := List.length_filterMap_le _ _
    _ = b.height := by simp

/-- survivorsCol only reads the height, the markings and the cells of its
column, so it is stable under changes elsewhere. -/
theorem survivorsCol_congr (b b' : GameBoard) (x : Nat)
    (hh : b'.height = b.height)
    (hm : ∀ y, y < b.height → b'.get_marking x y = b.get_marking x y)
    (hg : ∀ y, y < b.height → b'.grid.get x y = b.grid.get x y) :
    b'.survivorsCol x = b.survivorsCol x := by
  unfold GameBoard.survivorsCol
  rw [hh]
  refine List.filterMap_congr ?_
  intro y hy
  rw [List.mem_reverse] at hy
  have hylt : y < b.height := List.mem_range.mp hy
  rw [hm y hylt, hg y hylt]

/-- Characterization of the survivor-placement loop: survivor i0 + j goes
to row h - 1 - (i0 + j); all other cells, and every non-grid field, are
untouched. -/
theorem placeAux_spec (x h : Nat) :
    ∀ (S : List Tile) (i0 : Nat) (b : GameBoard),
      b.height = h → b.grid.height = h →
      b.grid.tiles.length = b.grid.width * h → x < b.grid.width →
      i0 + S.length ≤ h →
      (GameBoard.placeAux x h i0 S b
         = { b with grid := (GameBoard.placeAux x h i0 S b).grid }) ∧
      (GameBoard.placeAux x h i0 S b).grid.width = b.grid.width ∧
      (GameBoard.placeAux x h i0 S b).grid.height = b.grid.height ∧
      (GameBoard.placeAux x h i0 S b).grid.tiles.length = b.grid.tiles.length ∧
      (∀ j t, S.get? j = Option.some t →
        (GameBoard.placeAux x h i0 S b).grid.get x (h - 1 - (i0 + j)) = Option.some t) ∧
      (∀ x' y', y' < h → (x' ≠ x ∨ ∀ j, j < S.length → y' ≠ h - 1 - (i0 + j)) →
        (GameBoard.placeAux x h i0 S b).grid.get x' y' = b.grid.get x' y') := by
  intro S
  induction S with
  | nil =>
    intro i0 b hbh hgh hlen hx hle
    refine ⟨rfl, rfl, rfl, rfl, ?_, ?_⟩
    · intro j t hj; cases hj
    · intro x' y' _ _; rfl
  | cons t rest ih =>
    intro i0 b hbh hgh hlen hx hle
    have hh1 : 1 ≤ h := by
      simp only [List.length_cons] at hle
      omega
    have hrowlt : h - 1 - i0 < b.grid.height := by rw [hgh]; omega
    obtain ⟨ih1, ih2, ih3, ih4, ih5, ih6⟩ :=
      ih (i0 + 1) { b with grid := b.grid.set x (h - 1 - i0) (Option.some t) }
        hbh hgh (by simpa [Grid.set] using hlen) hx
        (by simp only [List.length_cons] at hle; omega)
    have hstep : GameBoard.placeAux x h i0 (t :: rest) b
        = GameBoard.placeAux x h (i0 + 1) rest
            { b with grid := b.grid.set x (h - 1 - i0) (Option.some t) } := rfl
    rw [hstep]
    refine ⟨ih1, ih2, ih3, by rw [ih4]; simp [Grid.set], ?_, ?_⟩
    · intro j s hj
      cases j with
      | zero =>
        simp only [List.get?] at hj
        cases hj
        simp only [Nat.add_zero]
        have hcond : (x ≠ x ∨ ∀ j, j < rest.length → h - 1 - i0 ≠ h - 1 - (i0 + 1 + j)) := by
          refine Or.inr ?_
          intro j hjlt
          simp only [List.length_cons] at hle
          omega
        rw [ih6 x (h - 1 - i0) (by omega) hcond]
        exact Grid.get_set_self b.grid x (h - 1 - i0) (Option.some t) hx hrowlt
          (show b.grid.tiles.length = b.grid.width * b.grid.height by rw [hgh]; exact hlen)
      | succ j' =>
        simp only [List.get?] at hj
        have := ih5 j' s hj
        have harith : h - 1 - (i0 + 1 + j') = h - 1 - (i0 + (j' + 1)) := by omega
        rw [harith] at this
        exact this
    · intro x' y' hy' hcond
      have hy'g : y' < b.grid.height := by rw [hgh]; exact hy'
      rcases hcond with hx' | hall
      · rw [ih6 x' y' hy' (Or.inl hx')]
        exact Grid.get_set_other b.grid (Option.some t) hrowlt hy'g (fun hc => hx' hc.1)
      · have hne0 : y' ≠ h - 1 - i0 := by
          have := hall 0 (by simp)
          simpa using this
        have hcond' : (x' ≠ x ∨ ∀ j, j < rest.length → y' ≠ h - 1 - (i0 + 1 + j)) := by
          refine Or.inr ?_
          intro j hjlt
          have := hall (j + 1) (by simp only [List.length_cons]; omega)
          have harith : h - 1 - (i0 + (j + 1)) = h - 1 - (i0 + 1 + j) := by omega
          rw [harith] at this
          exact this
        rw [ih6 x' y' hy' hcond']
        exact Grid.get_set_other b.grid (Option.some t) hrowlt hy'g (fun hc => hne0 hc.2)

/-- Characterization of the top-fill loop: every listed row of the column
receives a freshly generated tile with mask in [1,15]; other cells keep
their tiles, and the markings are untouched. -/
theorem fillNewAux_spec (x : Nat) :
    ∀ (ys : List Nat) (b : GameBoard),
      b.grid.height = b.height →
      b.grid.tiles.length = b.grid.width * b.height →
      x < b.grid.width →
      (∀ y ∈ ys, y < b.height) → ys.Nodup →
      ((GameBoard.fillNewAux x ys b).markings = b.markings ∧
       (GameBoard.fillNewAux x ys b).width = b.width ∧
       (GameBoard.fillNewAux x ys b).height = b.height ∧
       (GameBoard.fillNewAux x ys b).grid.width = b.grid.width ∧
       (GameBoard.fillNewAux x ys b).grid.height = b.grid.height ∧
       (GameBoard.fillNewAux x ys b).grid.tiles.length = b.grid.tiles.length) ∧
      (∀ y ∈ ys, ∃ k, 1 ≤ k ∧ k ≤ 15 ∧
        (GameBoard.fillNewAux x ys b).grid.get x y = Option.some (Tile.new k)) ∧
      (∀ x' y', y' < b.height → (x' ≠ x ∨ y' ∉ ys) →
        (GameBoard.fillNewAux x ys b).grid.get x' y' = b.grid.get x' y') := by
  intro ys
  induction ys with
  | nil =>
    intro b _ _ _ _ _
    refine ⟨⟨rfl, rfl, rfl, rfl, rfl, rfl⟩, ?_, ?_⟩
    · intro y hy; cases hy
    · intro x' y' _ _; rfl
  | cons y rest ih =>
    intro b hgh hlen hx hys hnd
    have hylt : y < b.height := hys y (List.mem_cons_self y rest)
    have hylt' : y < b.grid.height := by rw [hgh]; exact hylt
    obtain ⟨k1, k2⟩ := get_new_element_range b
    have hgrid : (b.get_new_element).2.grid = b.grid := rfl
    have hheight : (b.get_new_element).2.height = b.height := rfl
    have hmark : (b.get_new_element).2.markings = b.markings := rfl
    have hwidth : (b.get_new_element).2.width = b.width := rfl
    have hlen1 : ((b.get_new_element).2.grid.set x y
        (Option.some (Tile.new (b.get_new_element).1))).tiles.length = b.grid.tiles.length := by
      simp only [Grid.set, List.length_set, hgrid]
    obtain ⟨ihA, ihB, ihC⟩ :=
      ih { (b.get_new_element).2 with
            grid := (b.get_new_element).2.grid.set x y (Option.some (Tile.new (b.get_new_element).1)) }
        hgh (by simp only [Grid.set, List.length_set]; exact hlen) hx
        (fun y' hy' => hys y' (List.mem_cons_of_mem y hy'))
        (List.Nodup.of_cons hnd)
    have hstep : GameBoard.fillNewAux x (y :: rest) b
        = GameBoard.fillNewAux x rest
            { (b.get_new_element).2 with
              grid := (b.get_new_element).2.grid.set x y
                (Option.some (Tile.new (b.get_new_element).1)) } := rfl
    rw [hstep]
    have hynotin : y ∉ rest := (List.nodup_cons.mp hnd).1
    refine ⟨⟨?_, ?_, ?_, ?_, ?_, ?_⟩, ?_, ?_⟩
    · exact ihA.1.trans hmark
    · exact ihA.2.1.trans hwidth
    · exact ihA.2.2.1.trans hheight
    · exact ihA.2.2.2.1.trans rfl
    · exact ihA.2.2.2.2.1.trans rfl
    · exact ihA.2.2.2.2.2.trans hlen1
    · intro y' hy'
      rcases List.mem_cons.mp hy' with h | h
      · subst h
        refine ⟨(b.get_new_element).1, k1, k2, ?_⟩
        rw [ihC x y' hylt (Or.inr hynotin)]
        exact Grid.get_set_self _ x y' _ hx hylt'
          (show b.grid.tiles.length = b.grid.width * b.grid.height by rw [hgh]; exact hlen)
      · obtain ⟨k, hk1, hk2, hk3⟩ := ihB y' h
        exact ⟨k, hk1, hk2, hk3⟩
    · intro x' y' hy' hcond
      have hy'g : y' < b.grid.height := by rw [hgh]; exact hy'
      rcases hcond with hx' | hnotin
      · rw [ihC x' y' hy' (Or.inl hx')]
        exact Grid.get_set_other _ _ hylt' hy'g (fun hc => hx' hc.1)
      · have hne1 : y' ≠ y := fun hc => hnotin (hc ▸ List.mem_cons_self y rest)
        have hne2 : y' ∉ rest := fun hc => hnotin (List.mem_cons_of_mem y hc)
        rw [ihC x' y' hy' (Or.inr hne2)]
        exact Grid.get_set_other _ _ hylt' hy'g (fun hc => hne1 hc.2)

/-- get_marking only depends on the markings array and the height. -/
theorem get_marking_congr (b b' : GameBoard) (x y : Nat)
    (hm : b'.markings = b.markings) (hh : b'.height = b.height) :
    b'.get_marking x y = b.get_marking x y := by
  simp [GameBoard.get_marking, GameBoard.marking_idx, hm, hh]

/-- Characterization of the per-column body of
remove_and_shift_connecting_tiles: survivor j lands at row height-1-j,
rows below height - survivors count get fresh tiles with mask in [1,15],
other columns and the markings are untouched. -/
theorem removeShiftCol_spec (b : GameBoard) (x : Nat)
    (hgw : b.grid.width = b.width) (hgh : b.grid.height = b.height)
    (hlen : b.grid.tiles.length = b.width * b.height) (hx : x < b.width) :
    ((b.removeShiftCol x).markings = b.markings ∧
     (b.removeShiftCol x).width = b.width ∧
     (b.removeShiftCol x).height = b.height ∧
     (b.removeShiftCol x).grid.width = b.grid.width ∧
     (b.removeShiftCol x).grid.height = b.grid.height ∧
     (b.removeShiftCol x).grid.tiles.length = b.grid.tiles.length) ∧
    (∀ j t, (b.survivorsCol x).get? j = Option.some t →
      (b.removeShiftCol x).grid.get x (b.height - 1 - j) = Option.some t) ∧
    (∀ y, y < b.height - (b.survivorsCol x).length →
      ∃ k, 1 ≤ k ∧ k ≤ 15 ∧ (b.removeShiftCol x).grid.get x y = Option.some (Tile.new k)) ∧
    (∀ x' y', y' < b.height → x' ≠ x →
      (b.removeShiftCol x).grid.get x' y' = b.grid.get x' y') := by
  have hSle : (b.survivorsCol x).length ≤ b.height := survivorsCol_length_le b x
  have hxg : x < b.grid.width := by rw [hgw]; exact hx
  have hleng : b.grid.tiles.length = b.grid.width * b.height := by rw [hgw]; exact hlen
  obtain ⟨p1, p2, p3, p4, p5, p6⟩ :=
    placeAux_spec x b.height (b.survivorsCol x) 0 b rfl hgh hleng hxg (by omega)
  have hB1h : (GameBoard.placeAux x b.height 0 (b.survivorsCol x) b).height = b.height := by
    rw [p1]
  have hB1m : (GameBoard.placeAux x b.height 0 (b.survivorsCol x) b).markings = b.markings := by
    rw [p1]
  have hB1w : (GameBoard.placeAux x b.height 0 (b.survivorsCol x) b).width = b.width := by
    rw [p1]
  obtain ⟨f1, f2, f3⟩ :=
    fillNewAux_spec x (List.range (b.height - (b.survivorsCol x).length))
      (GameBoard.placeAux x b.height 0 (b.survivorsCol x) b)
      (by rw [p3, hgh, hB1h])
      (by rw [p4, p2, hB1h, hleng])
      (by rw [p2]; exact hxg)
      (fun y hy => by rw [hB1h]; have := List.mem_range.mp hy; omega)
      (List.nodup_range _)
  have hdef : b.removeShiftCol x
      = GameBoard.fillNewAux x (List.range (b.height - (b.survivorsCol x).length))
          (GameBoard.placeAux x b.height 0 (b.survivorsCol x) b) := rfl
  rw [hdef]
  refine ⟨⟨?_, ?_, ?_, ?_, ?_, ?_⟩, ?_, ?_, ?_⟩
  · rw [f1.1, hB1m]
  · rw [f1.2.1, hB1w]
  · rw [f1.2.2.1, hB1h]
  · rw [f1.2.2.2.1, p2]
  · rw [f1.2.2.2.2.1, p3]
  · rw [f1.2.2.2.2.2, p4]
  · intro j t hjt
    have hjlt : j < (b.survivorsCol x).length := by
      rcases List.get?_eq_some.mp hjt with ⟨hlt, _⟩
      exact hlt
    have hnotmem : b.height - 1 - j ∉ List.range (b.height - (b.survivorsCol x).length) := by
      rw [List.mem_range]
      omega
    have hrow : b.height - 1 - j <
        (GameBoard.placeAux x b.height 0 (b.survivorsCol x) b).height := by
      rw [hB1h]; omega
    rw [f3 x (b.height - 1 - j) hrow (Or.inr hnotmem)]
    have := p5 j t hjt
    rw [Nat.zero_add] at this
    exact this
  · intro y hy
    have hmem : y ∈ List.range (b.height - (b.survivorsCol x).length) := List.mem_range.mpr hy
    exact f2 y hmem
  · intro x' y' hy' hx'
    have hy'B1 : y' < (GameBoard.placeAux x b.height 0 (b.survivorsCol x) b).height := by
      rw [hB1h]; exact hy'
    rw [f3 x' y' hy'B1 (Or.inl hx')]
    exact p6 x' y' hy' (Or.inl hx')

/-- The column fold of remove_and_shift_connecting_tiles: every listed
column is rebuilt from its own survivors (computed on the input board,
since the markings never change and other columns do not affect it),
and unlisted columns are untouched. -/
theorem removeShiftFold_spec :
    ∀ (cols : List Nat) (b : GameBoard),
      b.grid.width = b.width → b.grid.height = b.height →
      b.grid.tiles.length = b.width * b.height →
      (∀ c ∈ cols, c < b.width) → cols.Nodup →
      ((cols.foldl GameBoard.removeShiftCol b).markings = b.markings ∧
       (cols.foldl GameBoard.removeShiftCol b).width = b.width ∧
       (cols.foldl GameBoard.removeShiftCol b).height = b.height ∧
       (cols.foldl GameBoard.removeShiftCol b).grid.width = b.grid.width ∧
       (cols.foldl GameBoard.removeShiftCol b).grid.height = b.grid.height ∧
       (cols.foldl GameBoard.removeShiftCol b).grid.tiles.length = b.grid.tiles.length) ∧
      (∀ x ∈ cols,
        (∀ j t, (b.survivorsCol x).get? j = Option.some t →
          (cols.foldl GameBoard.removeShiftCol b).grid.get x (b.height - 1 - j)
            = Option.some t) ∧
        (∀ y, y < b.height - (b.survivorsCol x).length →
          ∃ k, 1 ≤ k ∧ k ≤ 15 ∧
            (cols.foldl GameBoard.removeShiftCol b).grid.get x y
              = Option.some (Tile.new k))) ∧
      (∀ x' y', y' < b.height → x' ∉ cols →
        (cols.foldl GameBoard.removeShiftCol b).grid.get x' y' = b.grid.get x' y') := by
  intro cols
  induction cols with
  | nil =>
    intro b _ _ _ _ _
    refine ⟨⟨rfl, rfl, rfl, rfl, rfl, rfl⟩, ?_, ?_⟩
    · intro x hx; cases hx
    · intro x' y' _ _; rfl
  | cons c rest ih =>
    intro b hgw hgh hlen hcols hnd
    have hc : c < b.width := hcols c (List.mem_cons_self c rest)
    obtain ⟨d1, d2, d3, d4⟩ := removeShiftCol_spec b c hgw hgh hlen hc
    have hcnotin : c ∉ rest := (List.nodup_cons.mp hnd).1
    obtain ⟨i1, i2, i3⟩ :=
      ih (b.removeShiftCol c)
        (by rw [d1.2.2.2.1, d1.2.1, hgw])
        (by rw [d1.2.2.2.2.1, d1.2.2.1, hgh])
        (by rw [d1.2.2.2.2.2, d1.2.1, d1.2.2.1, hlen])
        (fun c' hc' => by rw [d1.2.1]; exact hcols c' (List.mem_cons_of_mem c hc'))
        (List.Nodup.of_cons hnd)
    have hfold : (c :: rest).foldl GameBoard.removeShiftCol b
        = rest.foldl GameBoard.removeShiftCol (b.removeShiftCol c) := rfl
    rw [hfold]
    have hsurv : ∀ x' ∈ rest, (b.removeShiftCol c).survivorsCol x' = b.survivorsCol x' := by
      intro x' hx'
      have hxc : x' ≠ c := fun heq => hcnotin (heq ▸ hx')
      refine survivorsCol_congr b (b.removeShiftCol c) x' d1.2.2.1 ?_ ?_
      · intro y hy
        exact get_marking_congr b (b.removeShiftCol c) x' y d1.1 d1.2.2.1
      · intro y hy
        exact d4 x' y hy hxc
    refine ⟨⟨?_, ?_, ?_, ?_, ?_, ?_⟩, ?_, ?_⟩
    · rw [i1.1, d1.1]
    · rw [i1.2.1, d1.2.1]
    · rw [i1.2.2.1, d1.2.2.1]
    · rw [i1.2.2.2.1, d1.2.2.2.1]
    · rw [i1.2.2.2.2.1, d1.2.2.2.2.1]
    · rw [i1.2.2.2.2.2, d1.2.2.2.2.2]
    · intro x hxmem
      rcases List.mem_cons.mp hxmem with h | h
      · subst h
        constructor
        · intro j t hjt
          have hjlt : j < (b.survivorsCol x).length := by
            rcases List.get?_eq_some.mp hjt with ⟨hlt, _⟩
            exact hlt
          have hSle : (b.survivorsCol x).length ≤ b.height := survivorsCol_length_le b x
          have hrow : b.height - 1 - j < (b.removeShiftCol x).height := by
            rw [d1.2.2.1]; omega
          rw [i3 x (b.height - 1 - j) (by rw [d1.2.2.1] at hrow; rw [d1.2.2.1]; exact hrow) hcnotin]
          exact d2 j t hjt
        · intro y hy
          obtain ⟨k, hk1, hk2, hk3⟩ := d3 y hy
          refine ⟨k, hk1, hk2, ?_⟩
          have hSle : (b.survivorsCol x).length ≤ b.height := survivorsCol_length_le b x
          rw [i3 x y (by rw [d1.2.2.1]; omega) hcnotin]
          exact hk3
      · obtain ⟨c1, c2⟩ := i2 x h
        constructor
        · intro j t hjt
          have := c1 j t (by rw [hsurv x h]; exact hjt)
          rw [d1.2.2.1] at this
          exact this
        · intro y hy
          have hy' : y < (b.removeShiftCol c).height - ((b.removeShiftCol c).survivorsCol x).length := by
            rw [d1.2.2.1, hsurv x h]
            exact hy
          exact c2 y hy'
    · intro x' y' hy' hnotin
      have hne : x' ≠ c := fun heq => hnotin (heq ▸ List.mem_cons_self c rest)
      have hnr : x' ∉ rest := fun hmem => hnotin (List.mem_cons_of_mem c hmem)
      rw [i3 x' y' (by rw [d1.2.2.1]; exact hy') hnr]
      exact d4 x' y' hy' hne

/-- Survivors of a fully occupied column with a single Ok cell at row k:
there are height-1 of them, those collected before reaching row k are the
tiles of rows height-1-j, and those collected after skipping row k are
the tiles of rows height-2-j. -/
theorem survivorsCol_single_ok (b : GameBoard) (x k : Nat)
    (hk : k < b.height)
    (hocc : ∀ y, y < b.height → (b.grid.get x y).isSome = true)
    (hokk : b.get_marking x k = Marking.ok)
    (huniq : ∀ y, y < b.height → y ≠ k → b.get_marking x y ≠ Marking.ok) :
    (b.survivorsCol x).length = b.height - 1 ∧
    (∀ j, j < b.height - 1 - k →
      (b.survivorsCol x).get? j = b.grid.get x (b.height - 1 - j)) ∧
    (∀ j, b.height - 1 - k ≤ j → j < b.height - 1 →
      (b.survivorsCol x).get? j = b.grid.get x (b.height - 2 - j)) := by
  have hsplit1 : List.range' 0 (k + 1) ++ List.range' (k + 1) (b.height - 1 - k)
      = List.range' 0 b.height := by
    have := List.range'_append 0 (k + 1) (b.height - 1 - k) 1
    simpa [show 0 + 1 * (k + 1) = k + 1 by omega,
      show b.height - 1 - k + (k + 1) = b.height by omega] using this
  have hsplit : List.range b.height
      = List.range (k + 1) ++ List.range' (k + 1) (b.height - 1 - k) := by
    rw [List.range_eq_range', List.range_eq_range', hsplit1]
  have hrev : (List.range b.height).reverse
      = (List.range' (k + 1) (b.height - 1 - k)).reverse ++ (k :: (List.range k).reverse) := by
    rw [hsplit, List.reverse_append]
    congr 1
    rw [List.range_succ, List.reverse_append]
    rfl
  have hS : b.survivorsCol x
      = ((List.range' (k + 1) (b.height - 1 - k)).reverse).filterMap
          (fun y => if b.get_marking x y ≠ Marking.ok then b.grid.get x y else Option.none)
        ++ ((List.range k).reverse).filterMap
          (fun y => if b.get_marking x y ≠ Marking.ok then b.grid.get x y else Option.none) := by
    unfold GameBoard.survivorsCol
    rw [hrev, List.filterMap_append, List.filterMap_cons]
    have hfk : (if b.get_marking x k ≠ Marking.ok then b.grid.get x k else Option.none)
        = Option.none := by
      rw [if_neg]
      simp [hokk]
    rw [hfk]
  have hfval : ∀ y, y < b.height → y ≠ k →
      (if b.get_marking x y ≠ Marking.ok then b.grid.get x y else Option.none)
        = b.grid.get x y := by
    intro y hy hyk
    rw [if_pos (huniq y hy hyk)]
  have hAsome : ∀ y ∈ (List.range' (k + 1) (b.height - 1 - k)).reverse,
      ((fun y => if b.get_marking x y ≠ Marking.ok then b.grid.get x y else Option.none) y).isSome := by
    intro y hy
    rw [List.mem_reverse, List.mem_range'] at hy
    obtain ⟨i, hi, rfl⟩ := hy
    have hylt : k + 1 + 1 * i < b.height := by omega
    have hyk : k + 1 + 1 * i ≠ k := by omega
    simp only [hfval _ hylt hyk]
    exact hocc _ hylt
  have hBsome : ∀ y ∈ (List.range k).reverse,
      ((fun y => if b.get_marking x y ≠ Marking.ok then b.grid.get x y else Option.none) y).isSome := by
    intro y hy
    rw [List.mem_reverse, List.mem_range] at hy
    have hylt : y < b.height := by omega
    have hyk : y ≠ k := by omega
    simp only [hfval _ hylt hyk]
    exact hocc _ hylt
  have hAlen : (((List.range' (k + 1) (b.height - 1 - k)).reverse).filterMap
      (fun y => if b.get_marking x y ≠ Marking.ok then b.grid.get x y else Option.none)).length
      = b.height - 1 - k := by
    rw [filterMap_length_of_isSome _ _ hAsome]
    simp
  have hBlen : (((List.range k).reverse).filterMap
      (fun y => if b.get_marking x y ≠ Marking.ok then b.grid.get x y else Option.none)).length
      = k := by
    rw [filterMap_length_of_isSome _ _ hBsome]
    simp
  refine ⟨?_, ?_, ?_⟩
  · rw [hS, List.length_append, hAlen, hBlen]
    omega
  · intro j hj
    have haj : ((List.range' (k + 1) (b.height - 1 - k)).reverse).get? j
        = Option.some (b.height - 1 - j) := by
      rw [List.get?_reverse (by simp; omega)]
      simp only [List.length_range']
      rw [List.get?_range' _ _ (show b.height - 1 - k - 1 - j < b.height - 1 - k by omega)]
      congr 1
      omega
    rw [hS, List.get?_append (by rw [hAlen]; exact hj)]
    rw [filterMap_get_of_isSome _ _ hAsome j _ haj]
    exact hfval _ (by omega) (by omega)
  · intro j hjm hjh
    have hbj : ((List.range k).reverse).get? (j - (b.height - 1 - k))
        = Option.some (b.height - 2 - j) := by
      rw [List.get?_reverse (by simp; omega)]
      simp only [List.length_range]
      rw [List.get?_range (show k - 1 - (j - (b.height - 1 - k)) < k by omega)]
      congr 1
      omega
    rw [hS, List.get?_append_right (by rw [hAlen]; exact hjm), hAlen]
    rw [filterMap_get_of_isSome _ _ hBsome _ _ hbj]
    exact hfval _ (by omega) (by omega)

/-- C2: remove_and_shift_connecting_tiles collects each column's
non-Ok tiles bottom-to-top (survivorsCol), re-places them at the bottom
preserving relative order (survivor j at row height-1-j), fills every
vacated top cell with a freshly generated tile with mask in [1,15]
(never null), and touches no markings; on a fully occupied column whose
single Ok cell is row k, every tile above row k moves exactly one row
down, every tile below row k stays, and the vacated top cell holds a
fresh non-null tile. -/
theorem remove_and_shift_spec (b : GameBoard)
    (hgw : b.grid.width = b.width) (hgh : b.grid.height = b.height)
    (hlen : b.grid.tiles.length = b.width * b.height) :
    (b.remove_and_shift_connecting_tiles).markings = b.markings ∧
    (∀ x, x < b.width →
      (∀ j t, (b.survivorsCol x).get? j = Option.some t →
        (b.remove_and_shift_connecting_tiles).grid.get x (b.height - 1 - j)
          = Option.some t) ∧
      (∀ y, y < b.height - (b.survivorsCol x).length →
        ∃ k, 1 ≤ k ∧ k ≤ 15 ∧
          (b.remove_and_shift_connecting_tiles).grid.get x y = Option.some (Tile.new k))) ∧
    (∀ x k, x < b.width → k < b.height →
      (∀ y, y < b.height → (b.grid.get x y).isSome = true) →
      b.get_marking x k = Marking.ok →
      (∀ y, y < b.height → y ≠ k → b.get_marking x y ≠ Marking.ok) →
      (∀ y, y < k →
        (b.remove_and_shift_connecting_tiles).grid.get x (y + 1) = b.grid.get x y) ∧
      (∀ y, k < y → y < b.height →
        (b.remove_and_shift_connecting_tiles).grid.get x y = b.grid.get x y) ∧
      (∃ kk, 1 ≤ kk ∧ kk ≤ 15 ∧
        (b.remove_and_shift_connecting_tiles).grid.get x 0 = Option.some (Tile.new kk))) := by
  have hrs : b.remove_and_shift_connecting_tiles
      = (List.range b.width).foldl GameBoard.removeShiftCol b := rfl
  obtain ⟨g1, g2, g3⟩ :=
    removeShiftFold_spec (List.range b.width) b hgw hgh hlen
      (fun c hc => List.mem_range.mp hc) (List.nodup_range _)
  rw [hrs]
  refine ⟨g1.1, ?_, ?_⟩
  · intro x hx
    exact g2 x (List.mem_range.mpr hx)
  · intro x k hx hk hocc hokk huniq
    obtain ⟨s1, s2, s3⟩ := survivorsCol_single_ok b x k hk hocc hokk huniq
    obtain ⟨c1, c2⟩ := g2 x (List.mem_range.mpr hx)
    refine ⟨?_, ?_, ?_⟩
    · intro y hy
      have hyh : y < b.height := by omega
      obtain ⟨t, ht⟩ := Option.isSome_iff_exists.mp (hocc y hyh)
      have hj : (b.survivorsCol x).get? (b.height - 2 - y) = Option.some t := by
        rw [s3 (b.height - 2 - y) (by omega) (by omega)]
        rw [show b.height - 2 - (b.height - 2 - y) = y by omega]
        exact ht
      have := c1 (b.height - 2 - y) t hj
      rw [show b.height - 1 - (b.height - 2 - y) = y + 1 by omega] at this
      rw [this, ht]
    · intro y hky hyh
      obtain ⟨t, ht⟩ := Option.isSome_iff_exists.mp (hocc y hyh)
      have hj : (b.survivorsCol x).get? (b.height - 1 - y) = Option.some t := by
        rw [s2 (b.height - 1 - y) (by omega)]
        rw [show b.height - 1 - (b.height - 1 - y) = y by omega]
        exact ht
      have := c1 (b.height - 1 - y) t hj
      rw [show b.height - 1 - (b.height - 1 - y) = y by omega] at this
      rw [this, ht]
    · refine c2 0 ?_
      rw [s1]
      omega

/-- Concrete 1x2 board whose bottom cell (0,1) is marked Ok, for the
remove-and-shift witness. -/
def removeBoard : GameBoard :=
  { width := 1
    height := 2
    grid := { width := 1, height := 2, tiles := [Option.some (Tile.mk 3), Option.some (Tile.mk 5)] }
    markings := [Marking.none, Marking.ok]
    multiplier_left := [1, 1]
    multiplier_right := [1, 1]
    rng := { state := 1 }
    left_pins_connect := 0
    right_pins_connect := 0
    left_conquered := 0
    right_conquered := 0
    missing_links := 0
    new_elements := 0
    missing_link_elements := 0 }

/-- Witness for remove_and_shift_spec: on removeBoard the tile above the
single Ok cell drops one row and the vacated top cell is refilled. -/
theorem remove_and_shift_spec_witness :
    (removeBoard.remove_and_shift_connecting_tiles).grid.get 0 1 = removeBoard.grid.get 0 0 ∧
    (∃ kk, 1 ≤ kk ∧ kk ≤ 15 ∧
      (removeBoard.remove_and_shift_connecting_tiles).grid.get 0 0
        = Option.some (Tile.new kk)) := by
  have h := (remove_and_shift_spec removeBoard rfl rfl rfl).2.2 0 1 (by decide) (by decide)
    (by decide) (by decide) (by decide)
  exact ⟨h.1 0 (by decide), h.2.2⟩

/-- The cell predicate of the full-board invariant: the cell holds a tile
whose mask is in [1,15]. -/
def goodCell (o : Option Tile) : Bool :=
  match o with
  | Option.some t => decide (1 ≤ t.connections) && decide (t.connections ≤ 15)
  | Option.none => false

/-- Grid-level full-board invariant. -/
def InvG (g : Grid) (w h : Nat) : Prop :=
  ∀ x, x < w → ∀ y, y < h → goodCell (g.get x y) = true

/-- Full-board invariant: every in-range cell holds a tile with mask in
[1,15] (in particular no cell is empty). -/
def Inv (b : GameBoard) : Prop := InvG b.grid b.width b.height

/-- Well-formedness of the flat storages against the board dimensions. -/
def WF (b : GameBoard) : Prop :=
  b.grid.width = b.width ∧ b.grid.height = b.height ∧
  b.grid.tiles.length = b.width * b.height

theorem goodCell_new (k : Nat) (h1 : 1 ≤ k) (h2 : k ≤ 15) :
    goodCell (Option.some (Tile.new k)) = true := by
  simp [goodCell, tile_new_small k h2, h1, h2]

/-- Writing a fresh tile preserves the grid invariant. -/
theorem InvG_set (g : Grid) (w h x y k : Nat)
    (hgw : g.width = w) (hgh : g.height = h) (hlen : g.tiles.length = w * h)
    (hx : x < w) (hy : y < h) (h1 : 1 ≤ k) (h2 : k ≤ 15)
    (hinv : InvG g w h) : InvG (g.set x y (Option.some (Tile.new k))) w h := by
  intro x' hx' y' hy'
  by_cases hc : x' = x ∧ y' = y
  · obtain ⟨rfl, rfl⟩ := hc
    rw [Grid.get_set_self g x' y' _ (by omega) (by omega) (by rw [hgw, hgh]; exact hlen)]
    exact goodCell_new k h1 h2
  · rw [Grid.get_set_other g _ (by omega) (by omega) hc]
    exact hinv x' hx' y' hy'

/-- Copying a cell from an in-range source preserves the grid invariant. -/
theorem InvG_copy (g : Grid) (w h x fy ty : Nat)
    (hgw : g.width = w) (hgh : g.height = h) (hlen : g.tiles.length = w * h)
    (hx : x < w) (hfy : fy < h) (hty : ty < h)
    (hinv : InvG g w h) : InvG (g.copy_within_column x fy ty) w h := by
  have hcopy : g.copy_within_column x fy ty = g.set x ty (g.get x fy) := rfl
  rw [hcopy]
  intro x' hx' y' hy'
  by_cases hc : x' = x ∧ y' = ty
  · obtain ⟨rfl, rfl⟩ := hc
    rw [Grid.get_set_self g x' y' _ (by omega) (by omega) (by rw [hgw, hgh]; exact hlen)]
    exact hinv x' hx fy hfy
  · rw [Grid.get_set_other g _ (by omega) (by omega) hc]
    exact hinv x' hx' y' hy'

/-- Characterization of the inner reset loop: every listed column of row
j receives a fresh tile with mask in [1,15]; other cells keep theirs. -/
theorem resetCellsAux_spec (j : Nat) :
    ∀ (cols : List Nat) (b : GameBoard),
      b.grid.height = b.height → b.grid.tiles.length = b.grid.width * b.height →
      j < b.height → (∀ i ∈ cols, i < b.grid.width) → cols.Nodup →
      ((GameBoard.resetCellsAux j cols b).width = b.width ∧
       (GameBoard.resetCellsAux j cols b).height = b.height ∧
       (GameBoard.resetCellsAux j cols b).grid.width = b.grid.width ∧
       (GameBoard.resetCellsAux j cols b).grid.height = b.grid.height ∧
       (GameBoard.resetCellsAux j cols b).grid.tiles.length = b.grid.tiles.length) ∧
      (∀ i ∈ cols, ∃ k, 1 ≤ k ∧ k ≤ 15 ∧
        (GameBoard.resetCellsAux j cols b).grid.get i j = Option.some (Tile.new k)) ∧
      (∀ x' y', y' < b.height → (y' ≠ j ∨ x' ∉ cols) →
        (GameBoard.resetCellsAux j cols b).grid.get x' y' = b.grid.get x' y') := by
  intro cols
  induction cols with
  | nil =>
    intro b _ _ _ _ _
    refine ⟨⟨rfl, rfl, rfl, rfl, rfl⟩, ?_, ?_⟩
    · intro i hi; cases hi
    · intro x' y' _ _; rfl
  | cons i rest ih =>
    intro b hgh hlen hj hcols hnd
    have hi : i < b.grid.width := hcols i (List.mem_cons_self i rest)
    have hjg : j < b.grid.height := by rw [hgh]; exact hj
    obtain ⟨k1, k2⟩ := get_new_element_range b
    have hinotin : i ∉ rest := (List.nodup_cons.mp hnd).1
    have hstep : GameBoard.resetCellsAux j (i :: rest) b
        = GameBoard.resetCellsAux j rest
            (GameBoard.set_marking
              { (b.get_new_element).2 with
                grid := (b.get_new_element).2.grid.set i j
                  (Option.some (Tile.new (b.get_new_element).1)) }
              i j Marking.none) := rfl
    have hgrid2 : (GameBoard.set_marking
        { (b.get_new_element).2 with
          grid := (b.get_new_element).2.grid.set i j
            (Option.some (Tile.new (b.get_new_element).1)) }
        i j Marking.none).grid
        = (b.get_new_element).2.grid.set i j
            (Option.some (Tile.new (b.get_new_element).1)) := rfl
    obtain ⟨ihA, ihB, ihC⟩ :=
      ih (GameBoard.set_marking
            { (b.get_new_element).2 with
              grid := (b.get_new_element).2.grid.set i j
                (Option.some (Tile.new (b.get_new_element).1)) }
            i j Marking.none)
        hgh (by simp only [Grid.set, List.length_set, GameBoard.set_marking]; exact hlen) hj
        (fun i' hi' => hcols i' (List.mem_cons_of_mem i hi'))
        (List.Nodup.of_cons hnd)
    rw [hstep]
    have hsetlen : ((b.get_new_element).2.grid.set i j
        (Option.some (Tile.new (b.get_new_element).1))).tiles.length
        = b.grid.tiles.length := by
      simp only [Grid.set, List.length_set]
      rfl
    refine ⟨⟨?_, ?_, ?_, ?_, ?_⟩, ?_, ?_⟩
    · exact ihA.1.trans rfl
    · exact ihA.2.1.trans rfl
    · exact ihA.2.2.1.trans rfl
    · exact ihA.2.2.2.1.trans rfl
    · exact ihA.2.2.2.2.trans hsetlen
    · intro i' hi'
      rcases List.mem_cons.mp hi' with h | h
      · subst h
        refine ⟨(b.get_new_element).1, k1, k2, ?_⟩
        rw [ihC i' j hj (Or.inr hinotin)]
        exact Grid.get_set_self _ i' j _ hi hjg (by rw [← hgh] at hlen; exact hlen)
      · exact ihB i' h
    · intro x' y' hy' hcond
      have hy'g : y' < b.grid.height := by rw [hgh]; exact hy'
      rcases hcond with hyj | hnotin
      · rw [ihC x' y' hy' (Or.inl hyj)]
        exact Grid.get_set_other _ _ hjg hy'g (fun hc => hyj hc.2)
      · have hne1 : x' ≠ i := fun hc => hnotin (hc ▸ List.mem_cons_self i rest)
        have hne2 : x' ∉ rest := fun hc => hnotin (List.mem_cons_of_mem i hc)
        rw [ihC x' y' hy' (Or.inr hne2)]
        exact Grid.get_set_other _ _ hjg hy'g (fun hc => hne1 hc.1)

/-- Characterization of the outer reset loop: every cell of every listed
row receives a fresh tile with mask in [1,15]. -/
theorem resetRowsAux_spec :
    ∀ (rows : List Nat) (b : GameBoard),
      b.grid.height = b.height → b.grid.tiles.length = b.grid.width * b.height →
      b.grid.width = b.width →
      (∀ j ∈ rows, j < b.height) → rows.Nodup →
      ((GameBoard.resetRowsAux rows b).width = b.width ∧
       (GameBoard.resetRowsAux rows b).height = b.height ∧
       (GameBoard.resetRowsAux rows b).grid.width = b.grid.width ∧
       (GameBoard.resetRowsAux rows b).grid.height = b.grid.height ∧
       (GameBoard.resetRowsAux rows b).grid.tiles.length = b.grid.tiles.length) ∧
      (∀ j ∈ rows, ∀ i, i < b.width → ∃ k, 1 ≤ k ∧ k ≤ 15 ∧
        (GameBoard.resetRowsAux rows b).grid.get i j = Option.some (Tile.new k)) ∧
      (∀ x' y', y' < b.height → y' ∉ rows →
        (GameBoard.resetRowsAux rows b).grid.get x' y' = b.grid.get x' y') := by
  intro rows
  induction rows with
  | nil =>
    intro b _ _ _ _ _
    refine ⟨⟨rfl, rfl, rfl, rfl, rfl⟩, ?_, ?_⟩
    · intro j hj; cases hj
    · intro x' y' _ _; rfl
  | cons j rest ih =>
    intro b hgh hlen hgw hrows hnd
    have hj : j < b.height := hrows j (List.mem_cons_self j rest)
    have hjnotin : j ∉ rest := (List.nodup_cons.mp hnd).1
    obtain ⟨cA, cB, cC⟩ :=
      resetCellsAux_spec j (List.range b.width) b hgh hlen hj
        (fun i hi => by rw [hgw]; exact List.mem_range.mp hi) (List.nodup_range _)
    have hstep : GameBoard.resetRowsAux (j :: rest) b
        = GameBoard.resetRowsAux rest
            { GameBoard.resetCellsAux j (List.range b.width) b with
              multiplier_left :=
                (GameBoard.resetCellsAux j (List.range b.width) b).multiplier_left.set j 1
              multiplier_right :=
                (GameBoard.resetCellsAux j (List.range b.width) b).multiplier_right.set j 1 } := rfl
    obtain ⟨iA, iB, iC⟩ :=
      ih { GameBoard.resetCellsAux j (List.range b.width) b with
            multiplier_left :=
              (GameBoard.resetCellsAux j (List.range b.width) b).multiplier_left.set j 1
            multiplier_right :=
              (GameBoard.resetCellsAux j (List.range b.width) b).multiplier_right.set j 1 }
        (by
          show (GameBoard.resetCellsAux j (List.range b.width) b).grid.height
            = (GameBoard.resetCellsAux j (List.range b.width) b).height
          rw [cA.2.2.2.1, cA.2.1, hgh])
        (by
          show (GameBoard.resetCellsAux j (List.range b.width) b).grid.tiles.length
            = (GameBoard.resetCellsAux j (List.range b.width) b).grid.width
              * (GameBoard.resetCellsAux j (List.range b.width) b).height
          rw [cA.2.2.2.2, cA.2.2.1, cA.2.1, hlen])
        (by
          show (GameBoard.resetCellsAux j (List.range b.width) b).grid.width
            = (GameBoard.resetCellsAux j (List.range b.width) b).width
          rw [cA.2.2.1, cA.1, hgw])
        (fun j' hj' => by
          show j' < (GameBoard.resetCellsAux j (List.range b.width) b).height
          rw [cA.2.1]
          exact hrows j' (List.mem_cons_of_mem j hj'))
        (List.Nodup.of_cons hnd)
    rw [hstep]
    refine ⟨⟨?_, ?_, ?_, ?_, ?_⟩, ?_, ?_⟩
    · exact iA.1.trans (by show (GameBoard.resetCellsAux j (List.range b.width) b).width = b.width; rw [cA.1])
    · exact iA.2.1.trans (by show (GameBoard.resetCellsAux j (List.range b.width) b).height = b.height; rw [cA.2.1])
    · exact iA.2.2.1.trans (by show (GameBoard.resetCellsAux j (List.range b.width) b).grid.width = b.grid.width; rw [cA.2.2.1])
    · exact iA.2.2.2.1.trans (by show (GameBoard.resetCellsAux j (List.range b.width) b).grid.height = b.grid.height; rw [cA.2.2.2.1])
    · exact iA.2.2.2.2.trans (by show (GameBoard.resetCellsAux j (List.range b.width) b).grid.tiles.length = b.grid.tiles.length; rw [cA.2.2.2.2])
    · intro j' hj' i hi
      rcases List.mem_cons.mp hj' with h | h
      · subst h
        obtain ⟨k, hk1, hk2, hk3⟩ := cB i (List.mem_range.mpr hi)
        refine ⟨k, hk1, hk2, ?_⟩
        rw [iC i j' (by
          show j' < (GameBoard.resetCellsAux j' (List.range b.width) b).height
          rw [cA.2.1]; exact hj) hjnotin]
        exact hk3
      · obtain ⟨k, hk1, hk2, hk3⟩ := iB j' h i (by
          rw [show ({ GameBoard.resetCellsAux j (List.range b.width) b with
              multiplier_left := (GameBoard.resetCellsAux j (List.range b.width) b).multiplier_left.set j 1
              multiplier_right := (GameBoard.resetCellsAux j (List.range b.width) b).multiplier_right.set j 1 } : GameBoard).width
            = b.width from by show (GameBoard.resetCellsAux j (List.range b.width) b).width = b.width; rw [cA.1]]
          exact hi)
        exact ⟨k, hk1, hk2, hk3⟩
    · intro x' y' hy' hnotin
      have hne1 : y' ≠ j := fun hc => hnotin (hc ▸ List.mem_cons_self j rest)
      have hne2 : y' ∉ rest := fun hc => hnotin (List.mem_cons_of_mem j hc)
      rw [iC x' y' (by
        show y' < (GameBoard.resetCellsAux j (List.range b.width) b).height
        rw [cA.2.1]; exact hy') hne2]
      exact cC x' y' hy' (Or.inl hne1)

/-- reset_table establishes the full-board invariant on any well-formed
board: every cell receives a fresh tile with mask in [1,15]. -/
theorem reset_table_Inv (b : GameBoard) (pml : Nat) (hwf : WF b) :
    Inv (b.reset_table pml) ∧ WF (b.reset_table pml) ∧
    (b.reset_table pml).width = b.width ∧ (b.reset_table pml).height = b.height := by
  obtain ⟨hgw, hgh, hlen⟩ := hwf
  have hstep : b.reset_table pml
      = GameBoard.resetRowsAux (List.range b.height)
          { b with
            missing_links := pml
            new_elements := 0
            missing_link_elements := 0 } := rfl
  obtain ⟨rA, rB, rC⟩ :=
    resetRowsAux_spec (List.range b.height)
      { b with missing_links := pml, new_elements := 0, missing_link_elements := 0 }
      hgh (by rw [← hgw] at hlen; exact hlen) hgw
      (fun j hj => List.mem_range.mp hj) (List.nodup_range _)
  rw [hstep]
  refine ⟨?_, ⟨?_, ?_, ?_⟩, rA.1, rA.2.1⟩
  · intro x hx y hy
    rw [rA.1] at hx
    rw [rA.2.1] at hy
    obtain ⟨k, hk1, hk2, hk3⟩ := rB y (List.mem_range.mpr hy) x hx
    rw [hk3]
    exact goodCell_new k hk1 hk2
  · rw [rA.2.2.1, rA.1, hgw]
  · rw [rA.2.2.2.1, rA.2.1, hgh]
  · rw [rA.2.2.2.2, rA.1, rA.2.1, hlen]

/-- GameBoard::new produces a well-formed board satisfying the full-board
invariant: reset_table fills every one of the width*height cells. -/
theorem gameBoard_new_Inv (width height missing_links seed : Nat) :
    Inv (GameBoard.new width height missing_links seed) ∧
    WF (GameBoard.new width height missing_links seed) ∧
    (GameBoard.new width height missing_links seed).width = width ∧
    (GameBoard.new width height missing_links seed).height = height := by
  have hwf : WF
      ({ width := width
         height := height
         grid := Grid.new width height
         markings := List.replicate (width * height) Marking.none
         multiplier_left := List.replicate height 1
         multiplier_right := List.replicate height 1
         rng := Rng.new seed
         left_pins_connect := 0
         right_pins_connect := 0
         left_conquered := 0
         right_conquered := 0
         missing_links := missing_links
         new_elements := 0
         missing_link_elements := 0 } : GameBoard) := by
    refine ⟨rfl, rfl, ?_⟩
    simp [Grid.new]
  obtain ⟨h1, h2, h3, h4⟩ := reset_table_Inv _ missing_links hwf
  exact ⟨h1, h2, h3, h4⟩

/-- The inner copy loop of bomb_table preserves the invariant when every
target row stays inside the working window. -/
theorem copyLoop_Inv (x shifted : Nat) :
    ∀ (sys : List Nat) (b : GameBoard),
      b.grid.width = b.width → b.grid.height = b.height →
      b.grid.tiles.length = b.width * b.height →
      x < b.width →
      (∀ sy ∈ sys, 1 ≤ sy ∧ sy + shifted < b.height) →
      Inv b →
      ((GameBoard.copyLoop x shifted sys b).width = b.width ∧
       (GameBoard.copyLoop x shifted sys b).height = b.height ∧
       (GameBoard.copyLoop x shifted sys b).grid.width = b.grid.width ∧
       (GameBoard.copyLoop x shifted sys b).grid.height = b.grid.height ∧
       (GameBoard.copyLoop x shifted sys b).grid.tiles.length = b.grid.tiles.length ∧
       (GameBoard.copyLoop x shifted sys b).markings = b.markings) ∧
      Inv (GameBoard.copyLoop x shifted sys b) := by
  intro sys
  induction sys with
  | nil =>
    intro b _ _ _ _ _ hinv
    exact ⟨⟨rfl, rfl, rfl, rfl, rfl, rfl⟩, hinv⟩
  | cons sy rest ih =>
    intro b hgw hgh hlen hx hsys hinv
    obtain ⟨hsy1, hsy2⟩ := hsys sy (List.mem_cons_self sy rest)
    have hinv1 : Inv ({ b with
        grid := b.grid.copy_within_column x (sy + shifted - 1) (sy + shifted) } : GameBoard) := by
      show InvG (b.grid.copy_within_column x (sy + shifted - 1) (sy + shifted)) b.width b.height
      exact InvG_copy b.grid b.width b.height x _ _ hgw hgh hlen hx (by omega) (by omega) hinv
    have hstep : GameBoard.copyLoop x shifted (sy :: rest) b
        = GameBoard.copyLoop x shifted rest
            { b with grid := b.grid.copy_within_column x (sy + shifted - 1) (sy + shifted) } := rfl
    rw [hstep]
    obtain ⟨iA, iB⟩ :=
      ih { b with grid := b.grid.copy_within_column x (sy + shifted - 1) (sy + shifted) }
        (by show (b.grid.copy_within_column x _ _).width = b.width; rw [← hgw]; rfl)
        (by show (b.grid.copy_within_column x _ _).height = b.height; rw [← hgh]; rfl)
        (by show (b.grid.copy_within_column x _ _).tiles.length = b.width * b.height
            simp only [Grid.copy_within_column, List.length_set]
            exact hlen)
        hx
        (fun sy' hsy' => hsys sy' (List.mem_cons_of_mem sy hsy'))
        hinv1
    refine ⟨⟨iA.1, iA.2.1, ?_, ?_, ?_, iA.2.2.2.2.2⟩, iB⟩
    · rw [iA.2.2.1]; rfl
    · rw [iA.2.2.2.1]; rfl
    · rw [iA.2.2.2.2.1]
      simp only [Grid.copy_within_column, List.length_set]

/-- The descending-row loop of bomb_table preserves the invariant: every
copy source and target stays inside the window (the positions of the row
list satisfy y + shifted + i + 1 = endj ≤ height), the per-row write at
row 0 is a fresh tile. -/
theorem bombColY_Inv (x endj : Nat) :
    ∀ (ys : List Nat) (shifted : Nat) (b : GameBoard),
      b.grid.width = b.width → b.grid.height = b.height →
      b.grid.tiles.length = b.width * b.height →
      x < b.width → endj ≤ b.height → 1 ≤ b.height →
      (∀ i y, ys.get? i = Option.some y → y + shifted + i + 1 = endj) →
      Inv b →
      ((GameBoard.bombColY x ys shifted b).width = b.width ∧
       (GameBoard.bombColY x ys shifted b).height = b.height ∧
       (GameBoard.bombColY x ys shifted b).grid.width = b.grid.width ∧
       (GameBoard.bombColY x ys shifted b).grid.height = b.grid.height ∧
       (GameBoard.bombColY x ys shifted b).grid.tiles.length = b.grid.tiles.length) ∧
      Inv (GameBoard.bombColY x ys shifted b) := by
  intro ys
  induction ys with
  | nil =>
    intro shifted b _ _ _ _ _ _ _ hinv
    exact ⟨⟨rfl, rfl, rfl, rfl, rfl⟩, hinv⟩
  | cons y rest ih =>
    intro shifted b hgw hgh hlen hx hendj hh1 hpos hinv
    have hy0 : y + shifted + 1 = endj := by
      have := hpos 0 y rfl
      omega
    obtain ⟨cA, cB⟩ :=
      copyLoop_Inv x shifted ((List.range' 1 y).reverse) b hgw hgh hlen hx
        (by
          intro sy hsy
          rw [List.mem_reverse, List.mem_range'] at hsy
          obtain ⟨i, hi, rfl⟩ := hsy
          omega)
        hinv
    have hb1 : (if 1 ≤ y then GameBoard.copyLoop x shifted ((List.range' 1 y).reverse) b else b).width = b.width ∧
        (if 1 ≤ y then GameBoard.copyLoop x shifted ((List.range' 1 y).reverse) b else b).height = b.height ∧
        (if 1 ≤ y then GameBoard.copyLoop x shifted ((List.range' 1 y).reverse) b else b).grid.width = b.grid.width ∧
        (if 1 ≤ y then GameBoard.copyLoop x shifted ((List.range' 1 y).reverse) b else b).grid.height = b.grid.height ∧
        (if 1 ≤ y then GameBoard.copyLoop x shifted ((List.range' 1 y).reverse) b else b).grid.tiles.length = b.grid.tiles.length ∧
        Inv (if 1 ≤ y then GameBoard.copyLoop x shifted ((List.range' 1 y).reverse) b else b) := by
      split
      · exact ⟨cA.1, cA.2.1, cA.2.2.1, cA.2.2.2.1, cA.2.2.2.2.1, cB⟩
      · exact ⟨rfl, rfl, rfl, rfl, rfl, hinv⟩
    set b1 := if 1 ≤ y then GameBoard.copyLoop x shifted ((List.range' 1 y).reverse) b else b with hb1def
    obtain ⟨e1, e2, e3, e4, e5, e6⟩ := hb1
    obtain ⟨k1, k2⟩ := get_new_element_range b1
    have hb2Inv : Inv ({ (b1.get_new_element).2 with
        grid := (b1.get_new_element).2.grid.set x 0
          (Option.some (Tile.new (b1.get_new_element).1)) } : GameBoard) := by
      show InvG ((b1.get_new_element).2.grid.set x 0
        (Option.some (Tile.new (b1.get_new_element).1)))
        (b1.get_new_element).2.width (b1.get_new_element).2.height
      have : InvG b1.grid b1.width b1.height := e6
      refine InvG_set b1.grid b1.width b1.height x 0 (b1.get_new_element).1
        (by rw [e3, e1, hgw]) (by rw [e4, e2, hgh])
        (by rw [e5, e1, e2, hlen]) (by rw [e1]; exact hx) (by rw [e2]; omega)
        k1 k2 this
    have hstep : GameBoard.bombColY x (y :: rest) shifted b
        = GameBoard.bombColY x rest (shifted + 1)
            { (b1.get_new_element).2 with
              grid := (b1.get_new_element).2.grid.set x 0
                (Option.some (Tile.new (b1.get_new_element).1)) } := rfl
    rw [hstep]
    obtain ⟨fA, fB⟩ :=
      ih (shifted + 1)
        { (b1.get_new_element).2 with
          grid := (b1.get_new_element).2.grid.set x 0
            (Option.some (Tile.new (b1.get_new_element).1)) }
        (by
          show ((b1.get_new_element).2.grid.set x 0 _).width = (b1.get_new_element).2.width
          show b1.grid.width = b1.width
          rw [e3, e1, hgw])
        (by
          show ((b1.get_new_element).2.grid.set x 0 _).height = (b1.get_new_element).2.height
          show b1.grid.height = b1.height
          rw [e4, e2, hgh])
        (by
          show ((b1.get_new_element).2.grid.set x 0 _).tiles.length
            = (b1.get_new_element).2.width * (b1.get_new_element).2.height
          simp only [Grid.set, List.length_set]
          show b1.grid.tiles.length = b1.width * b1.height
          rw [e5, e1, e2, hlen])
        (by show x < (b1.get_new_element).2.width; show x < b1.width; rw [e1]; exact hx)
        (by show endj ≤ (b1.get_new_element).2.height; show endj ≤ b1.height; rw [e2]; exact hendj)
        (by show 1 ≤ (b1.get_new_element).2.height; show 1 ≤ b1.height; rw [e2]; exact hh1)
        (by
          intro i y' hi
          have := hpos (i + 1) y' hi
          omega)
        hb2Inv
    have hb2len : ((b1.get_new_element).2.grid.set x 0
        (Option.some (Tile.new (b1.get_new_element).1))).tiles.length
        = b.grid.tiles.length := by
      simp only [Grid.set, List.length_set]
      show b1.grid.tiles.length = b.grid.tiles.length
      exact e5
    refine ⟨⟨?_, ?_, ?_, ?_, ?_⟩, fB⟩
    · rw [fA.1]; show b1.width = b.width; exact e1
    · rw [fA.2.1]; show b1.height = b.height; exact e2
    · rw [fA.2.2.1]; show b1.grid.width = b.grid.width; exact e3
    · rw [fA.2.2.2.1]; show b1.grid.height = b.grid.height; exact e4
    · rw [fA.2.2.2.2]; exact hb2len

/-- The final fill loop of bomb_table preserves the invariant. -/
theorem bombFill_Inv (x : Nat) :
    ∀ (fys : List Nat) (b : GameBoard),
      b.grid.width = b.width → b.grid.height = b.height →
      b.grid.tiles.length = b.width * b.height →
      x < b.width → (∀ fy ∈ fys, fy < b.height) →
      Inv b →
      ((GameBoard.bombFill x fys b).width = b.width ∧
       (GameBoard.bombFill x fys b).height = b.height ∧
       (GameBoard.bombFill x fys b).grid.width = b.grid.width ∧
       (GameBoard.bombFill x fys b).grid.height = b.grid.height ∧
       (GameBoard.bombFill x fys b).grid.tiles.length = b.grid.tiles.length) ∧
      Inv (GameBoard.bombFill x fys b) := by
  intro fys
  induction fys with
  | nil =>
    intro b _ _ _ _ _ hinv
    exact ⟨⟨rfl, rfl, rfl, rfl, rfl⟩, hinv⟩
  | cons fy rest ih =>
    intro b hgw hgh hlen hx hfys hinv
    have hfy : fy < b.height := hfys fy (List.mem_cons_self fy rest)
    obtain ⟨k1, k2⟩ := get_new_element_range b
    have hb1Inv : Inv ({ (b.get_new_element).2 with
        grid := (b.get_new_element).2.grid.set x fy
          (Option.some (Tile.new (b.get_new_element).1)) } : GameBoard) := by
      show InvG ((b.get_new_element).2.grid.set x fy _)
        (b.get_new_element).2.width (b.get_new_element).2.height
      exact InvG_set b.grid b.width b.height x fy (b.get_new_element).1
        hgw hgh hlen hx hfy k1 k2 hinv
    have hstep : GameBoard.bombFill x (fy :: rest) b
        = GameBoard.bombFill x rest
            { (b.get_new_element).2 with
              grid := (b.get_new_element).2.grid.set x fy
                (Option.some (Tile.new (b.get_new_element).1)) } := rfl
    rw [hstep]
    obtain ⟨fA, fB⟩ :=
      ih { (b.get_new_element).2 with
            grid := (b.get_new_element).2.grid.set x fy
              (Option.some (Tile.new (b.get_new_element).1)) }
        hgw hgh (by simp only [Grid.set, List.length_set]; exact hlen) hx
        (fun fy' hfy' => hfys fy' (List.mem_cons_of_mem fy hfy'))
        hb1Inv
    have hb1len : ((b.get_new_element).2.grid.set x fy
        (Option.some (Tile.new (b.get_new_element).1))).tiles.length
        = b.grid.tiles.length := by
      simp only [Grid.set, List.length_set]
      rfl
    exact ⟨⟨fA.1, fA.2.1, fA.2.2.1, fA.2.2.2.1, fA.2.2.2.2.trans hb1len⟩, fB⟩

/-- A fold preserves any invariant preserved by each step on members. -/
theorem foldl_preserve_mem {α β : Type} (P : α → Prop) (f : α → β → α) :
    ∀ (l : List β) (b : α), P b → (∀ a x, x ∈ l → P a → P (f a x)) → P (l.foldl f b) := by
  intro l
  induction l with
  | nil => intro b h0 _; exact h0
  | cons x rest ih =>
    intro b h0 hstep
    exact ih (f b x) (hstep b x (List.mem_cons_self x rest) h0)
      (fun a x' hx' ha => hstep a x' (List.mem_cons_of_mem x hx') ha)

/-- One bombed column preserves the invariant. -/
theorem bombCol_Inv (b : GameBoard) (x start_j endj : Nat)
    (hgw : b.grid.width = b.width) (hgh : b.grid.height = b.height)
    (hlen : b.grid.tiles.length = b.width * b.height)
    (hx : x < b.width) (hendj : endj ≤ b.height) (hh1 : 1 ≤ b.height)
    (hinv : Inv b) :
    ((b.bombCol x start_j endj).width = b.width ∧
     (b.bombCol x start_j endj).height = b.height ∧
     (b.bombCol x start_j endj).grid.width = b.grid.width ∧
     (b.bombCol x start_j endj).grid.height = b.grid.height ∧
     (b.bombCol x start_j endj).grid.tiles.length = b.grid.tiles.length) ∧
    Inv (b.bombCol x start_j endj) := by
  have hpos : ∀ i y, ((List.range' start_j (endj - start_j)).reverse).get? i = Option.some y →
      y + 0 + i + 1 = endj := by
    intro i y hi
    have hlt : i < (List.range' start_j (endj - start_j)).reverse.length :=
      (List.get?_eq_some.mp hi).1
    rw [List.length_reverse, List.length_range'] at hlt
    rw [List.get?_reverse (by rw [List.length_range']; exact hlt)] at hi
    simp only [List.length_range'] at hi
    rw [List.get?_range' _ _ (show endj - start_j - 1 - i < endj - start_j by omega)] at hi
    have hy : start_j + 1 * (endj - start_j - 1 - i) = y := Option.some.inj hi
    omega
  obtain ⟨yA, yB⟩ :=
    bombColY_Inv x endj ((List.range' start_j (endj - start_j)).reverse) 0 b
      hgw hgh hlen hx hendj hh1 hpos hinv
  have hstep : b.bombCol x start_j endj
      = GameBoard.bombFill x ((List.range (endj - start_j)).reverse)
          (GameBoard.bombColY x ((List.range' start_j (endj - start_j)).reverse) 0 b) := rfl
  rw [hstep]
  obtain ⟨fA, fB⟩ :=
    bombFill_Inv x ((List.range (endj - start_j)).reverse)
      (GameBoard.bombColY x ((List.range' start_j (endj - start_j)).reverse) 0 b)
      (by rw [yA.2.2.1, yA.1, hgw]) (by rw [yA.2.2.2.1, yA.2.1, hgh])
      (by rw [yA.2.2.2.2, yA.1, yA.2.1, hlen])
      (by rw [yA.1]; exact hx)
      (by
        intro fy hfy
        rw [List.mem_reverse, List.mem_range] at hfy
        rw [yA.2.1]
        omega)
      yB
  refine ⟨⟨?_, ?_, ?_, ?_, ?_⟩, fB⟩
  · rw [fA.1, yA.1]
  · rw [fA.2.1, yA.2.1]
  · rw [fA.2.2.1, yA.2.2.1]
  · rw [fA.2.2.2.1, yA.2.2.2.1]
  · rw [fA.2.2.2.2, yA.2.2.2.2]

/-- bomb_table preserves well-formedness and the full-board invariant. -/
theorem bomb_table_Inv (b : GameBoard) (ati atj dx dy : Nat)
    (hwf : WF b) (hinv : Inv b) :
    Inv (b.bomb_table ati atj dx dy) ∧ WF (b.bomb_table ati atj dx dy) ∧
    (b.bomb_table ati atj dx dy).width = b.width ∧
    (b.bomb_table ati atj dx dy).height = b.height := by
  obtain ⟨hgw, hgh, hlen⟩ := hwf
  unfold GameBoard.bomb_table
  split
  · exact ⟨hinv, ⟨hgw, hgh, hlen⟩, rfl, rfl⟩
  · rename_i hguard
    push_neg at hguard
    have hh1 : 1 ≤ b.height := by omega
    have hfold := foldl_preserve_mem
      (fun b' : GameBoard => b'.width = b.width ∧ b'.height = b.height ∧
        b'.grid.width = b.grid.width ∧ b'.grid.height = b.grid.height ∧
        b'.grid.tiles.length = b.grid.tiles.length ∧ Inv b')
      (fun b' x => b'.bombCol x (atj - dy) (min (atj + dy + 1) b.height))
      (List.range' (ati - dx) (min (ati + dx + 1) b.width - (ati - dx)))
      b ⟨rfl, rfl, rfl, rfl, rfl, hinv⟩
      ?_
    · obtain ⟨w1, w2, w3, w4, w5, w6⟩ := hfold
      exact ⟨w6, ⟨by rw [w3, w1, hgw], by rw [w4, w2, hgh], by rw [w5, w1, w2, hlen]⟩, w1, w2⟩
    · intro a x hxmem ⟨a1, a2, a3, a4, a5, a6⟩
      have hxlt : x < b.width := by
        rw [List.mem_range'] at hxmem
        obtain ⟨i, hi, rfl⟩ := hxmem
        omega
      obtain ⟨cA, cB⟩ :=
        bombCol_Inv a x (atj - dy) (min (atj + dy + 1) b.height)
          (by rw [a3, a1, hgw]) (by rw [a4, a2, hgh]) (by rw [a5, a1, a2, hlen])
          (by rw [a1]; exact hxlt) (by rw [a2]; omega) (by rw [a2]; exact hh1)
          a6
      exact ⟨cA.1.trans a1, cA.2.1.trans a2, cA.2.2.1.trans a3,
        cA.2.2.2.1.trans a4, cA.2.2.2.2.trans a5, cB⟩

/-- C9: the grid never contains an empty cell: GameBoard::new (via
reset_table) places a tile with mask in [1,15] in every one of the
width*height cells, and reset_table, remove_and_shift_connecting_tiles
and bomb_table each preserve that invariant on well-formed boards. -/
theorem board_invariant_spec :
    (∀ width height missing_links seed : Nat,
      Inv (GameBoard.new width height missing_links seed)) ∧
    (∀ (b : GameBoard) (pml : Nat), WF b → Inv (b.reset_table pml)) ∧
    (∀ b : GameBoard, WF b → Inv b → Inv b.remove_and_shift_connecting_tiles) ∧
    (∀ (b : GameBoard) (ati atj dx dy : Nat), WF b → Inv b →
      Inv (b.bomb_table ati atj dx dy)) := by
  refine ⟨?_, ?_, ?_, ?_⟩
  · intro w h ml seed
    exact (gameBoard_new_Inv w h ml seed).1
  · intro b pml hwf
    exact (reset_table_Inv b pml hwf).1
  · intro b hwf hinv
    obtain ⟨hgw, hgh, hlen⟩ := hwf
    have hrs : b.remove_and_shift_connecting_tiles
        = (List.range b.width).foldl GameBoard.removeShiftCol b := rfl
    obtain ⟨g1, g2, g3⟩ :=
      removeShiftFold_spec (List.range b.width) b hgw hgh hlen
        (fun c hc => List.mem_range.mp hc) (List.nodup_range _)
    intro x hx y hy
    rw [hrs] at hx hy ⊢
    rw [g1.2.1] at hx
    rw [g1.2.2.1] at hy
    obtain ⟨c1, c2⟩ := g2 x (List.mem_range.mpr hx)
    have hSle : (b.survivorsCol x).length ≤ b.height := survivorsCol_length_le b x
    rcases Nat.lt_or_ge y (b.height - (b.survivorsCol x).length) with hcase | hcase
    · obtain ⟨k, hk1, hk2, hk3⟩ := c2 y hcase
      rw [hk3]
      exact goodCell_new k hk1 hk2
    · have hjlt : b.height - 1 - y < (b.survivorsCol x).length := by omega
      cases hjt : (b.survivorsCol x).get? (b.height - 1 - y) with
      | none =>
        rw [List.get?_eq_none] at hjt
        omega
      | some t =>
        have hval := c1 (b.height - 1 - y) t hjt
        rw [show b.height - 1 - (b.height - 1 - y) = y by omega] at hval
        rw [hval]
        obtain ⟨y0, hy0, hcell⟩ := survivorsCol_mem b x t (List.get?_mem hjt)
        have hgood := hinv x hx y0 hy0
        rw [hcell] at hgood
        exact hgood
  · intro b ati atj dx dy hwf hinv
    exact (bomb_table_Inv b ati atj dx dy hwf hinv).1

/-- Concrete well-formed 2x2 board satisfying the invariant, for the
invariant witness. -/
def bombBoard : GameBoard :=
  { width := 2
    height := 2
    grid :=
      { width := 2, height := 2
        tiles := [Option.some (Tile.mk 1), Option.some (Tile.mk 6),
                  Option.some (Tile.mk 9), Option.some (Tile.mk 15)] }
    markings := [Marking.none, Marking.none, Marking.none, Marking.none]
    multiplier_left := [1, 1]
    multiplier_right := [1, 1]
    rng := { state := 7 }
    left_pins_connect := 0
    right_pins_connect := 0
    left_conquered := 0
    right_conquered := 0
    missing_links := 0
    new_elements := 0
    missing_link_elements := 0 }

/-- Witness for board_invariant_spec: bombBoard is well-formed and full,
and stays full across a 2x2 bomb at (0,0). -/
theorem board_invariant_spec_witness :
    WF bombBoard ∧ Inv bombBoard ∧ Inv (bombBoard.bomb_table 0 0 1 1) :=
  ⟨by unfold WF; decide, by unfold Inv InvG; decide,
   board_invariant_spec.2.2.2 bombBoard 0 0 1 1
     (by unfold WF; decide) (by unfold Inv InvG; decide)⟩

end ZapZap
